import Mathlib

/-!
Verification of the turntable-queue lane-scheduling and lifecycle core.

The definitions below are a shallow embedding of the TypeScript sources:
`src/core/Queue.ts` (the per-lane FIFO with a concurrency cap),
`src/core/QueueManager.ts` (the multi-lane manager), and the
`PersistenceService` (buffering/batching of lifecycle transitions and
startup recovery).  Payloads are opaque and modelled by `Nat`; job ids
(uuids in the source) are modelled by a fresh-`Nat` supply; wall-clock
times (`Date.now()`) are explicit `Nat` parameters.  The single-threaded
JavaScript execution model is captured by applying operations
sequentially to an explicit state.
-/

namespace Turntable

/-- Job lifecycle status, from `JobStatus` in `core/types`. -/
inductive JobStatus
  | pending
  | running
  | completed
  | failed
  | timed_out
  deriving DecidableEq, Repr

/-- Terminal statuses: completed, failed, timed_out. -/
def JobStatus.isTerminal : JobStatus → Bool
  | .completed => true
  | .failed => true
  | .timed_out => true
  | _ => false

/-- One job record, from the `Job` interface as used by `core/Queue.ts`.
`timerArmed` models a live `timeoutRef` (a `setTimeout` that has neither
fired nor been cleared); `hasCompleteListener` / `hasFailListener` model
the two `once` listeners registered in `startJob` for
`job:complete:<id>` and `job:fail:<id>`.  The promise returned by
`addJob` resolves via the job's `onComplete` callback and rejects via
`onError`; whether it has settled is therefore a function of the job's
status (see `Queue.promiseSettled`). -/
structure Job where
  id : Nat
  data : Nat
  createdAt : Nat
  status : JobStatus
  timeoutMs : Option Nat
  startedAt : Option Nat := none
  completedAt : Option Nat := none
  error : Option String := none
  timerArmed : Bool := false
  hasCompleteListener : Bool := false
  hasFailListener : Bool := false
  deriving DecidableEq, Repr

/-- State of one lane, from the fields of `class Queue` in
`core/Queue.ts`.  `queue` is the pending FIFO, `runningJobs` the running
set.  `finished` holds job objects that have been removed from
`runningJobs` but are still reachable through listener closures (in
JavaScript the objects simply stay alive); it carries no scheduling
meaning.  `workerAlive` models the `workerTimer` interval being set. -/
structure Queue where
  queue : List Job
  runningJobs : List Job
  finished : List Job
  concurrency : Int
  defaultTimeout : Nat
  active : Bool
  workerAlive : Bool
  deriving DecidableEq, Repr

/-- `Queue` constructor: `concurrency = options.concurrency ?? 1`,
`defaultTimeout = options.defaultTimeoutMs ?? 30000`; the worker interval
is started.  Note: no validation of the concurrency value is performed. -/
def Queue.new (concurrencyOpt : Option Int) (defaultTimeoutOpt : Option Nat) : Queue :=
  { queue := []
    runningJobs := []
    finished := []
    concurrency := concurrencyOpt.getD 1
    defaultTimeout := defaultTimeoutOpt.getD 30000
    active := true
    workerAlive := true }

/-- `addJob(data, timeoutMs?)`: build a pending job and push it at the
tail of the FIFO.  The uuid is supplied as `jobId`.  Returns the state
and the generated id.  (The *promise* returned by the source `addJob`
does not resolve here; see `Queue.promiseSettled`.) -/
def Queue.addJob (q : Queue) (data : Nat) (timeoutMsOpt : Option Nat) (jobId now : Nat) :
    Queue × Nat :=
  let job : Job :=
    { id := jobId
      data := data
      createdAt := now
      status := .pending
      timeoutMs := some (timeoutMsOpt.getD q.defaultTimeout) }
  ({ q with queue := q.queue ++ [job] }, jobId)

/-- `startJob(job)`: mark running, set `startedAt`, push onto
`runningJobs`, arm the timeout timer, register the two `once`
listeners. -/
def Queue.startJob (q : Queue) (job : Job) (now : Nat) : Queue :=
  let j :=
    { job with
      status := .running
      startedAt := some now
      timerArmed := true
      hasCompleteListener := true
      hasFailListener := true }
  { q with runningJobs := q.runningJobs ++ [j] }

/-- The `for` loop inside `processNextJobs`: shift `n` jobs off the head
of the FIFO and start each. -/
def Queue.startLoop (q : Queue) (n : Nat) (now : Nat) : Queue :=
  match n, q.queue with
  | 0, _ => q
  | _ + 1, [] => q
  | n + 1, job :: rest => Queue.startLoop (Queue.startJob { q with queue := rest } job now) n now

/-- `processNextJobs()`: no-op when at capacity or the FIFO is empty;
otherwise start `min(slotsAvailable, queue.length)` jobs. -/
def Queue.processNextJobs (q : Queue) (now : Nat) : Queue :=
  if q.concurrency ≤ (q.runningJobs.length : Int) ∨ q.queue = [] then q
  else
    let slotsAvailable := q.concurrency - (q.runningJobs.length : Int)
    let jobsToStart := min slotsAvailable (q.queue.length : Int)
    q.startLoop jobsToStart.toNat now

/-- One firing of the worker interval set up in `startWorker`: it runs
only while the interval exists and returns early when `!active`. -/
def Queue.tick (q : Queue) (now : Nat) : Queue :=
  if q.workerAlive ∧ q.active then q.processNextJobs now else q

/-- `handleJobCompletion` on one job object: clear the timer, set
status/`completedAt`, consume the fired `once` complete-listener.  The
fail-listener is *not* removed by the source. -/
def Job.finalizeComplete (j : Job) (now : Nat) : Job :=
  { j with
    status := .completed
    completedAt := some now
    timerArmed := false
    hasCompleteListener := false }

/-- `handleJobFailure` on one job object. -/
def Job.finalizeFail (j : Job) (e : Option String) (now : Nat) : Job :=
  { j with
    status := .failed
    completedAt := some now
    timerArmed := false
    hasFailListener := false
    error := some (e.getD "Job failed without specific error") }

/-- `handleJobTimeout` on one job object: the timer has fired (so it is
no longer armed); status becomes timed_out.  The source does *not*
remove either `once` listener here. -/
def Job.finalizeTimeout (j : Job) (now : Nat) : Job :=
  { j with
    status := .timed_out
    completedAt := some now
    timerArmed := false }

/-- Whether `emit('job:complete:' ++ id)` finds a listener closed over
this job object. -/
def Job.hearsComplete (j : Job) (jobId : Nat) : Bool :=
  j.id == jobId && j.hasCompleteListener

/-- Whether `emit('job:fail:' ++ id)` finds a listener closed over this
job object. -/
def Job.hearsFail (j : Job) (jobId : Nat) : Bool :=
  j.id == jobId && j.hasFailListener

/-- `completeJob(jobId)`: emits `job:complete:<id>`; every job object
with a live complete-listener for that id runs `handleJobCompletion`,
which also removes it from `runningJobs` (`removeRunningJob`). -/
def Queue.completeJob (q : Queue) (jobId now : Nat) : Queue :=
  let fired := q.runningJobs.filter (fun j => j.hearsComplete jobId)
  let stay := q.runningJobs.filter (fun j => !j.hearsComplete jobId)
  { q with
    runningJobs := stay
    finished :=
      q.finished.map (fun j => if j.hearsComplete jobId then j.finalizeComplete now else j)
        ++ fired.map (fun j => j.finalizeComplete now) }

/-- `failJob(jobId, error?)`: emits `job:fail:<id>`; symmetric to
`completeJob`. -/
def Queue.failJob (q : Queue) (jobId : Nat) (e : Option String) (now : Nat) : Queue :=
  let fired := q.runningJobs.filter (fun j => j.hearsFail jobId)
  let stay := q.runningJobs.filter (fun j => !j.hearsFail jobId)
  { q with
    runningJobs := stay
    finished :=
      q.finished.map (fun j => if j.hearsFail jobId then j.finalizeFail e now else j)
        ++ fired.map (fun j => j.finalizeFail e now) }

/-- Whether the `setTimeout` armed in `startJob` for this job can still
fire. -/
def Job.timerHits (j : Job) (jobId : Nat) : Bool :=
  j.id == jobId && j.timerArmed

/-- The timeout timer for job `jobId` firing: `handleJobTimeout` runs on
every job object whose timer for that id is still armed. -/
def Queue.fireTimeout (q : Queue) (jobId now : Nat) : Queue :=
  let fired := q.runningJobs.filter (fun j => j.timerHits jobId)
  let stay := q.runningJobs.filter (fun j => !j.timerHits jobId)
  { q with
    runningJobs := stay
    finished :=
      q.finished.map (fun j => if j.timerHits jobId then j.finalizeTimeout now else j)
        ++ fired.map (fun j => j.finalizeTimeout now) }

/-- `pause()`. -/
def Queue.pause (q : Queue) : Queue :=
  { q with active := false }

/-- `resume()`. -/
def Queue.resume (q : Queue) : Queue :=
  { q with active := true }

/-- `shutdown()`: deactivate and clear the worker interval. -/
def Queue.shutdown (q : Queue) : Queue :=
  { q with active := false, workerAlive := false }

/-- `get length` — the pending count. -/
def Queue.length (q : Queue) : Nat :=
  q.queue.length

/-- `getRunningCount()`. -/
def Queue.getRunningCount (q : Queue) : Nat :=
  q.runningJobs.length

/-- `getMaxConcurrency()`. -/
def Queue.getMaxConcurrency (q : Queue) : Int :=
  q.concurrency

/-- `isWorkerActive()`. -/
def Queue.isWorkerActive (q : Queue) : Bool :=
  q.active

/-- `getPendingJobs()` — the jobs it copies (aliasing is modelled
separately by the heap model below). -/
def Queue.getPendingJobs (q : Queue) : List Job :=
  q.queue

/-- All job objects reachable in this lane's structures. -/
def Queue.allJobs (q : Queue) : List Job :=
  q.queue ++ q.runningJobs ++ q.finished

/-- Status of the (unique) job object with the given id, if any. -/
def Queue.statusOf (q : Queue) (jobId : Nat) : Option JobStatus :=
  ((q.allJobs).find? (fun j => j.id == jobId)).map (fun j => j.status)

/-- Whether the promise returned by `addJob` for `jobId` has settled.
In the source, `resolve(jobId)` is called only by
`handleJobCompletion`/`handleJobTimeout` (via `onComplete`) and
`reject` only by `handleJobFailure` (via `onError`); the promise has
settled exactly when the job has reached a terminal status. -/
def Queue.promiseSettled (q : Queue) (jobId : Nat) : Bool :=
  match q.statusOf jobId with
  | some s => s.isTerminal
  | none => false

/-- One externally scheduled event against a single lane. -/
inductive LaneOp
  | submit (data : Nat) (timeoutMsOpt : Option Nat) (jobId : Nat)
  | tick
  | complete (jobId : Nat)
  | fail (jobId : Nat) (e : Option String)
  | fireTimeout (jobId : Nat)
  | pause
  | resume
  | shutdown
  deriving DecidableEq, Repr

/-- Apply one event at time `now`. -/
def Queue.applyOp (q : Queue) (op : LaneOp) (now : Nat) : Queue :=
  match op with
  | .submit data t jobId => (q.addJob data t jobId now).1
  | .tick => q.tick now
  | .complete jobId => q.completeJob jobId now
  | .fail jobId e => q.failJob jobId e now
  | .fireTimeout jobId => q.fireTimeout jobId now
  | .pause => q.pause
  | .resume => q.resume
  | .shutdown => q.shutdown

/-- Run a timed event sequence. -/
def Queue.runOps (q : Queue) (ops : List (LaneOp × Nat)) : Queue :=
  ops.foldl (fun s p => s.applyOp p.1 p.2) q

/-- Pending + running total of a lane, as computed inside the manager's
`addJob` reduce (`a.length + a.getRunningCount()`). -/
def Queue.totalJobs (q : Queue) : Nat :=
  q.length + q.getRunningCount

/-- State of the multi-lane manager, from the fields of
`class QueueManager` in `core/QueueManager.ts`, in the configuration the
claims target (`persistenceService` absent: no `prismaClient` was
supplied, so persistence is disabled with a warning).  `nextId` models
the global uuid supply. -/
structure QueueManager where
  queues : List Queue
  concurrencyPerQueue : Int
  timeoutMsOpt : Option Nat
  queueCountOpt : Int
  nextId : Nat
  deriving DecidableEq, Repr

/-- JavaScript `x || 1` on the optional `concurrencyPerQueue` option:
`undefined` and `0` are falsy and replaced by the default `1`. -/
def jsOrOne : Option Int → Int
  | none => 1
  | some v => if v = 0 then 1 else v

/-- `QueueManager` constructor: `concurrencyPerQueue = options.concurrencyPerQueue || 1`;
`Array.from with length queueCount` clamps a negative count to zero lanes;
each lane is a fresh `Queue` with the shared cap and default timeout.
No validation of either configuration value is performed. -/
def QueueManager.new (queueCount : Int) (concurrencyPerQueueOpt : Option Int)
    (timeoutMsOpt : Option Nat) : QueueManager :=
  let cpq := jsOrOne concurrencyPerQueueOpt
  { queues := List.replicate queueCount.toNat (Queue.new (some cpq) timeoutMsOpt)
    concurrencyPerQueue := cpq
    timeoutMsOpt := timeoutMsOpt
    queueCountOpt := queueCount
    nextId := 0 }

/-- The accumulator step of
`queues.reduce((a, b) => totalA <= totalB ? a : b)`, carried out over
`(index, total)` pairs so lane identity is visible: the accumulator is
kept when its total is `≤` the candidate's. -/
def pickMin (best : Nat × Nat) : List (Nat × Nat) → Nat × Nat
  | [] => best
  | p :: rest => pickMin (if best.2 ≤ p.2 then best else p) rest

/-- Index of the lane selected by the manager's reduce over a list of
per-lane totals: the leftmost lane with the minimum total. -/
def QueueManager.selectIdx (ts : List Nat) : Nat :=
  match ts with
  | [] => 0
  | t :: rest => (pickMin (0, t) (rest.enumFrom 1)).1

/-- `QueueManager.addJob(data)`: pick the lane with the least
`pending + running` (leftmost on ties) and delegate to its `addJob`
(which receives no per-call timeout).  Returns the new state and the
generated id. -/
def QueueManager.addJob (m : QueueManager) (data : Nat) (now : Nat) : QueueManager × Nat :=
  let i := QueueManager.selectIdx (m.queues.map Queue.totalJobs)
  let q := m.queues.getD i (Queue.new none none)
  let r := q.addJob data none m.nextId now
  ({ m with queues := m.queues.set i r.1, nextId := m.nextId + 1 }, r.2)

/-- `QueueManager.completeJob(jobId)`: broadcast to every lane. -/
def QueueManager.completeJob (m : QueueManager) (jobId now : Nat) : QueueManager :=
  { m with queues := m.queues.map (fun q => q.completeJob jobId now) }

/-- `QueueManager.failJob(jobId, error?)`: broadcast to every lane. -/
def QueueManager.failJob (m : QueueManager) (jobId : Nat) (e : Option String) (now : Nat) :
    QueueManager :=
  { m with queues := m.queues.map (fun q => q.failJob jobId e now) }

/-- `updateQueueCount(newCount)` in the no-persistence configuration:
reject `newCount ≤ 0`; grow by appending fresh lanes with the current
cap; shrink by keeping the first `newCount` lanes, shutting the rest
down, collecting their pending jobs and resubmitting each one's `data`
through `this.addJob` (which generates a fresh id); equal count does
nothing. -/
def QueueManager.updateQueueCount (m : QueueManager) (newCount : Int) (now : Nat) :
    Except String QueueManager :=
  if newCount ≤ 0 then
    .error "Queue count must be greater than 0"
  else
    let currentCount := m.queues.length
    if (currentCount : Int) < newCount then
      let additional :=
        List.replicate (newCount.toNat - currentCount)
          (Queue.new (some m.concurrencyPerQueue) m.timeoutMsOpt)
      .ok { m with queues := m.queues ++ additional, queueCountOpt := newCount }
    else if newCount < (currentCount : Int) then
      let queuesToKeep := m.queues.take newCount.toNat
      let queuesToRemove := m.queues.drop newCount.toNat
      let collected := (queuesToRemove.map Queue.getPendingJobs).flatten
      -- the removed lanes are shut down (`queue.shutdown()`) and dropped;
      -- their running jobs go with them
      let m1 := { m with queues := queuesToKeep, queueCountOpt := newCount }
      .ok (collected.foldl (fun acc job => (acc.addJob job.data now).1) m1)
    else
      .ok m

/-- `updateConcurrencyPerQueue(newConcurrency)`: reject `≤ 0`, record
the new cap, then call `updateQueueCount(queues.length)` — intended (per
the source comment) to recreate the lanes. -/
def QueueManager.updateConcurrencyPerQueue (m : QueueManager) (newConcurrency : Int)
    (now : Nat) : Except String QueueManager :=
  if newConcurrency ≤ 0 then
    .error "Concurrency must be greater than 0"
  else
    let m1 := { m with concurrencyPerQueue := newConcurrency }
    m1.updateQueueCount (m1.queues.length : Int) now

/-- One entry of `getStats()`. -/
structure QueueStats where
  queueId : Nat
  length : Nat
  running : Nat
  maxConcurrency : Int
  isActive : Bool
  deriving DecidableEq, Repr

/-- `getStats()`: per-lane stats in lane-index order. -/
def QueueManager.getStats (m : QueueManager) : List QueueStats :=
  (m.queues.enum).map fun p =>
    { queueId := p.1
      length := p.2.length
      running := p.2.getRunningCount
      maxConcurrency := p.2.getMaxConcurrency
      isActive := p.2.isWorkerActive }

/-- Whether any lane has settled the `addJob` promise for `jobId`
(`Manager.addJob` awaits the delegated lane's promise). -/
def QueueManager.promiseSettled (m : QueueManager) (jobId : Nat) : Bool :=
  m.queues.any (fun q => q.promiseSettled jobId)

/-- Every lane's own worker interval firing at the same instant (each
lane runs its own `setInterval` admission step). -/
def QueueManager.tickLanes (m : QueueManager) (now : Nat) : QueueManager :=
  { m with queues := m.queues.map (fun q => q.tick now) }

/-- The `Queue` constructor viewed at the exception boundary: the source
constructor performs no validation and has no throw path. -/
def Queue.construct (concurrencyOpt : Option Int) (defaultTimeoutOpt : Option Nat) :
    Except String Queue :=
  .ok (Queue.new concurrencyOpt defaultTimeoutOpt)

/-- The `QueueManager` constructor viewed at the exception boundary: the
source constructor performs no validation and has no throw path. -/
def QueueManager.construct (queueCount : Int) (concurrencyPerQueueOpt : Option Int)
    (timeoutMsOpt : Option Nat) : Except String QueueManager :=
  .ok (QueueManager.new queueCount concurrencyPerQueueOpt timeoutMsOpt)

/-- JavaScript `x || null` / `x || undefined` on an optional number:
`0` is falsy and collapses to the absent value. -/
def truthyNat : Option Nat → Option Nat
  | some 0 => none
  | x => x

/-- JavaScript `s || null` / `s || undefined` on an optional string:
the empty string is falsy. -/
def truthyStr : Option String → Option String
  | some s => if s = "" then none else some s
  | none => none

/-- One entry of the `pendingSyncJobs` buffer: the job object spread
together with the `queueIndex` recorded by `persistJob`. -/
structure BufJob where
  job : Job
  queueIndex : Nat
  deriving DecidableEq, Repr

/-- One persisted row, after the column conversions of the batch
upsert (`PersistenceService.flushPendingJobs`). -/
structure DbRow where
  id : Nat
  data : Nat
  status : JobStatus
  queueIndex : Nat
  timeoutMs : Option Nat
  createdAt : Nat
  startedAt : Option Nat
  completedAt : Option Nat
  error : Option String
  deriving DecidableEq, Repr

/-- State of the `PersistenceService`: the in-memory transition buffer
(a JavaScript `Map` keyed by job id, in insertion order) and the durable
store behind the Prisma client, modelled as a list of rows keyed by the
primary key `id`. -/
structure PersistenceService where
  pendingSyncJobs : List BufJob
  db : List DbRow
  batchSize : Nat
  deriving DecidableEq, Repr

/-- `persistJob(job, queueIndex)`: `Map.set` keyed by `job.id` —
an existing key is overwritten in place, a new key is appended. -/
def PersistenceService.persistJob (ps : PersistenceService) (job : Job) (queueIndex : Nat) :
    PersistenceService :=
  let e : BufJob := { job := job, queueIndex := queueIndex }
  if ps.pendingSyncJobs.any (fun b => b.job.id == job.id) then
    { ps with
      pendingSyncJobs :=
        ps.pendingSyncJobs.map (fun b => if b.job.id == job.id then e else b) }
  else
    { ps with pendingSyncJobs := ps.pendingSyncJobs ++ [e] }

/-- The `create` column mapping of the batch upsert. -/
def BufJob.toRow (b : BufJob) : DbRow :=
  { id := b.job.id
    data := b.job.data
    status := b.job.status
    queueIndex := b.queueIndex
    timeoutMs := truthyNat b.job.timeoutMs
    createdAt := b.job.createdAt
    startedAt := truthyNat b.job.startedAt
    completedAt := truthyNat b.job.completedAt
    error := truthyStr b.job.error }

/-- The `update` column mapping of the batch upsert: status always,
`startedAt`/`completedAt`/`error` only when truthy (Prisma ignores
`undefined` fields). -/
def DbRow.applyUpsertUpdate (r : DbRow) (b : BufJob) : DbRow :=
  { r with
    status := b.job.status
    startedAt := match truthyNat b.job.startedAt with
      | some v => some v
      | none => r.startedAt
    completedAt := match truthyNat b.job.completedAt with
      | some v => some v
      | none => r.completedAt
    error := match truthyStr b.job.error with
      | some e => some e
      | none => r.error }

/-- `prisma.job.upsert` for one buffered job: create if the id is
unseen by storage, else update. -/
def dbUpsert (db : List DbRow) (b : BufJob) : List DbRow :=
  if db.any (fun r => r.id == b.job.id) then
    db.map (fun r => if r.id == b.job.id then r.applyUpsertUpdate b else r)
  else
    db ++ [b.toRow]

/-- `flushPendingJobs()`: take up to `batchSize` entries off the front
of the buffer, delete them from the buffer by id, and apply the batch
upsert transaction. -/
def PersistenceService.flushPendingJobs (ps : PersistenceService) : PersistenceService :=
  if ps.pendingSyncJobs = [] then ps
  else
    let jobsToSync := ps.pendingSyncJobs.take ps.batchSize
    let buf := ps.pendingSyncJobs.filter
      (fun b => !(jobsToSync.any (fun s => s.job.id == b.job.id)))
    { ps with pendingSyncJobs := buf, db := jobsToSync.foldl dbUpsert ps.db }

/-- The direct `prisma.job.update` taken by `updateJobStatus` when the
id is no longer buffered (a missing row leaves storage unchanged —
the rejected promise is not observed by the caller). -/
def DbRow.applyDirectUpdate (r : DbRow) (status : JobStatus) (err : Option String) (now : Nat) :
    DbRow :=
  { r with
    status := status
    startedAt := if status = .running then some now else r.startedAt
    completedAt := if status.isTerminal then some now else r.completedAt
    error := match truthyStr err with
      | some e => some e
      | none => r.error }

/-- The in-place mutation `updateJobStatus` performs on a buffered job:
set the status; record the error when one was passed; stamp `startedAt`
on a first transition to running and `completedAt` on a first terminal
transition (the `!job.startedAt` / `!job.completedAt` truthiness checks
treat a stored `0` as unset). -/
def BufJob.applyStatusUpdate (b : BufJob) (status : JobStatus) (err : Option String)
    (now : Nat) : BufJob :=
  { b with job := { b.job with
      status := status
      error := match err with
        | some e => some e
        | none => b.job.error
      startedAt := if status = .running ∧ truthyNat b.job.startedAt = none then
          some now
        else b.job.startedAt
      completedAt := if status.isTerminal ∧ truthyNat b.job.completedAt = none then
          some now
        else b.job.completedAt } }

/-- `updateJobStatus(jobId, status, error?)`: if the id is still in the
in-memory buffer, mutate the buffered job (last writer wins) and touch
nothing else; otherwise update the database row directly. -/
def PersistenceService.updateJobStatus (ps : PersistenceService) (jobId : Nat)
    (status : JobStatus) (err : Option String) (now : Nat) : PersistenceService :=
  if ps.pendingSyncJobs.any (fun b => b.job.id == jobId) then
    { ps with
      pendingSyncJobs := ps.pendingSyncJobs.map (fun b =>
        if b.job.id == jobId then b.applyStatusUpdate status err now else b) }
  else
    { ps with
      db := ps.db.map (fun r =>
        if r.id == jobId then r.applyDirectUpdate status err now else r) }

/-- Whether a stored row is selected by recovery
(`status in [pending, running]`). -/
def DbRow.isUnfinished (r : DbRow) : Bool :=
  r.status == .pending || r.status == .running

/-- The `Job` rebuilt from a recovered row, including the forced
running→pending downgrade. -/
def DbRow.toRecoveredJob (r : DbRow) : Job :=
  { id := r.id
    data := r.data
    createdAt := r.createdAt
    status := if r.status == .running then .pending else r.status
    timeoutMs := truthyNat r.timeoutMs
    startedAt := truthyNat r.startedAt
    completedAt := truthyNat r.completedAt
    error := truthyStr r.error }

/-- The lane index recovery places a row at: a stored index outside the
new topology is remapped by modulo. -/
def DbRow.recoveryIdx (r : DbRow) (queueCount : Nat) : Nat :=
  if queueCount ≤ r.queueIndex then r.queueIndex % queueCount else r.queueIndex

/-- One iteration of the `recoverJobs` loop: append the rebuilt job to
its group, and persist the downgrade for a row found running. -/
def recoverStep (queueCount : Nat) (acc : List (List Job) × List DbRow) (r : DbRow) :
    List (List Job) × List DbRow :=
  let t := r.recoveryIdx queueCount
  let groups := acc.1.set t (acc.1.getD t [] ++ [r.toRecoveredJob])
  let db :=
    if r.status == .running then
      acc.2.map (fun r' => if r'.id == r.id then { r' with status := JobStatus.pending } else r')
    else acc.2
  (groups, db)

/-- `recoverJobs(queueCount)`: flush once, select every stored job that
is pending or running, group by (remapped) lane index, downgrading any
running job to pending both in the returned record and in storage. -/
def PersistenceService.recoverJobs (ps : PersistenceService) (queueCount : Nat) :
    List (List Job) × PersistenceService :=
  let ps := ps.flushPendingJobs
  let rows := ps.db.filter DbRow.isUnfinished
  let out := rows.foldl (recoverStep queueCount) (List.replicate queueCount [], ps.db)
  (out.1, { ps with db := out.2 })

/-- `cleanupOldJobs(ageInDays)`: delete rows whose status is terminal
and whose `completedAt` is before the cutoff; returns the deleted
count. -/
def PersistenceService.cleanupOldJobs (ps : PersistenceService) (cutoff : Nat) :
    PersistenceService × Nat :=
  let keep := ps.db.filter (fun r =>
    !(r.status.isTerminal && match r.completedAt with
      | some t => t < cutoff
      | none => false))
  ({ ps with db := keep }, ps.db.length - keep.length)

/-- A JavaScript array store: each cell is one array object; a `Nat`
index is an object reference.  Used to state aliasing (frame) facts
about methods that return copies. -/
structure JSHeap where
  arrs : List (List Job)
  deriving DecidableEq, Repr

/-- Allocate a fresh array object holding `xs`; returns the new heap and
the new reference. -/
def JSHeap.alloc (h : JSHeap) (xs : List Job) : JSHeap × Nat :=
  ({ arrs := h.arrs ++ [xs] }, h.arrs.length)

/-- Read an array object. -/
def JSHeap.readArr (h : JSHeap) (r : Nat) : List Job :=
  h.arrs.getD r []

/-- Replace the contents of an array object in place (the effect of any
sequence of element additions and removals performed on it). -/
def JSHeap.writeArr (h : JSHeap) (r : Nat) (xs : List Job) : JSHeap :=
  { arrs := h.arrs.set r xs }

/-- The references a live lane holds to its two internal arrays
(`this.queue` and `this.runningJobs`). -/
structure QueueRefs where
  queueRef : Nat
  runningRef : Nat
  deriving DecidableEq, Repr

/-- `getPendingJobs()` at the heap level: `[...this.queue]` allocates a
fresh array holding a copy of the pending FIFO's contents. -/
def Queue.getPendingJobsAlloc (h : JSHeap) (refs : QueueRefs) : JSHeap × Nat :=
  h.alloc (h.readArr refs.queueRef)

/-- `getRunningJobs()` at the heap level: `[...this.runningJobs]`
allocates a fresh array holding a copy of the running set's contents. -/
def Queue.getRunningJobsAlloc (h : JSHeap) (refs : QueueRefs) : JSHeap × Nat :=
  h.alloc (h.readArr refs.runningRef)

/-- Structural invariant of a lane: pending jobs are pending, members of
the running set are running, and job objects removed from the running
set are in a terminal state. -/
def Queue.WF (q : Queue) : Prop :=
  (∀ j ∈ q.queue, j.status = JobStatus.pending)
  ∧ (∀ j ∈ q.runningJobs, j.status = JobStatus.running)
  ∧ (∀ j ∈ q.finished, j.status.isTerminal = true)

/-- The concurrency bound of a lane: the running set never outgrows the
cap. -/
def Queue.RunBound (q : Queue) : Prop :=
  (q.runningJobs.length : Int) ≤ q.concurrency

/-- A two-lane manager, concurrency 1 per lane, after submitting two
jobs (each lane now runs one job): the configuration of the spec's
tie-break example. -/
def twoBusyLanes : QueueManager :=
  QueueManager.tickLanes (((QueueManager.new 2 (some 1) none).addJob 100 0).1.addJob 101 1).1 2

/-! ## Theorems -/

/-- C1: refuted on the code.  `Queue.addJob` pushes the pending job
synchronously, but the promise it returns is settled only by the job's
`onComplete`/`onError` callbacks, which fire at a terminal transition
(`handleJobCompletion`, `handleJobTimeout`, `handleJobFailure`) — the
`return jobId` inside the promise executor does not resolve it.  Run on
a fresh lane of cap 1: after `addJob` the job is queued pending yet the
caller has not received the id; it still has not after the admission
step promotes the job to running; the promise settles exactly at the
terminal transition.  The manager's `addJob` awaits the same promise. -/
theorem c1_addJob_promise_waits_for_terminal :
    (((Queue.new (some 1) none).addJob 5 none 0 10).2 = 0
      ∧ ((Queue.new (some 1) none).addJob 5 none 0 10).1.statusOf 0
          = some JobStatus.pending
      ∧ ((Queue.new (some 1) none).addJob 5 none 0 10).1.promiseSettled 0 = false)
    ∧ ((((Queue.new (some 1) none).addJob 5 none 0 10).1.tick 11).statusOf 0
          = some JobStatus.running
      ∧ (((Queue.new (some 1) none).addJob 5 none 0 10).1.tick 11).promiseSettled 0 = false)
    ∧ ((((Queue.new (some 1) none).addJob 5 none 0 10).1.tick 11).completeJob 0 12).promiseSettled 0
        = true
    ∧ (((QueueManager.new 1 (some 1) none).addJob 5 10).2 = 0
      ∧ ((QueueManager.new 1 (some 1) none).addJob 5 10).1.promiseSettled 0 = false) := by
  decide

/-- C2: refuted on the code.  The `once` listeners registered in
`startJob` for `job:complete:<id>` and `job:fail:<id>` are not removed
when the job times out, so a later `completeJob(id)` runs
`handleJobCompletion` on a job already in the terminal state timed_out
and rewrites its status to completed: terminal states are not
absorbing.  Concretely: submit job 0 on a cap-1 lane, promote it, let
its timer fire (status timed_out, a terminal state), then deliver
`completeJob(0)` — the status becomes completed. -/
theorem c2_terminal_state_not_absorbing :
    (((Queue.new (some 1) none).runOps
        [(.submit 5 none 0, 10), (.tick, 11), (.fireTimeout 0, 12)]).statusOf 0
      = some JobStatus.timed_out
    ∧ JobStatus.timed_out.isTerminal = true)
    ∧ (((Queue.new (some 1) none).runOps
        [(.submit 5 none 0, 10), (.tick, 11), (.fireTimeout 0, 12), (.complete 0, 13)]).statusOf 0
      = some JobStatus.completed) := by
  decide

/-- C3: refuted on the code.  `updateConcurrencyPerQueue(newCap)`
records the new cap and then calls `updateQueueCount(queues.length)`,
but `updateQueueCount` does nothing when the new count equals the
current count, so no lane is ever rebuilt: the existing lanes keep their
old (readonly) concurrency, and `getStats` still reports the old cap.
Concretely: a manager with one lane of cap 1, after
`updateConcurrencyPerQueue(3)`, succeeds, records `concurrencyPerQueue = 3`,
yet leaves the lane untouched with `maxConcurrency = 1`. -/
theorem c3_updateConcurrency_rebuilds_no_lane :
    ((QueueManager.new 1 (some 1) none).updateConcurrencyPerQueue 3 0).toOption
      = some { QueueManager.new 1 (some 1) none with concurrencyPerQueue := 3 }
    ∧ (((QueueManager.new 1 (some 1) none).updateConcurrencyPerQueue 3 0).toOption.map
        (fun m => m.getStats.map (fun s => s.maxConcurrency)) = some [1]) := by
  decide

/-- C4 counterexample: in the no-persistence configuration the shrink
path resubmits each collected pending job via `this.addJob(job.data)`,
which generates a fresh uuid.  Concretely: two lanes, job 0 pending in
lane 0 and job 1 pending in lane 1; shrinking to one lane succeeds, but
afterward no lane holds a job with id 1 — the collected job reappears
only as a fresh job (id 2) with the same payload. -/
theorem c4_shrink_loses_job_id :
    (((((QueueManager.new 2 (some 1) none).addJob 7 0).1.addJob 8 1).1.updateQueueCount
        1 5).toOption.map
      (fun m => m.queues.map (fun q => q.queue.map (fun j => (j.id, j.data)))))
      = some [[(0, 7), (2, 8)]]
    ∧ (((((QueueManager.new 2 (some 1) none).addJob 7 0).1.addJob 8 1).1.updateQueueCount
        1 5).toOption.map
      (fun m => m.queues.any (fun q => q.allJobs.any (fun j => j.id == 1))))
      = some false := by
  decide

/-- C5 counterexample: neither constructor validates its concurrency
configuration.  `new Queue with concurrency 0` raises nothing and
produces a lane whose cap is 0; a negative cap is accepted the same way;
`new QueueManager` likewise accepts `queueCount = 0` (zero lanes) and a
negative `concurrencyPerQueue` without raising. -/
theorem c5_constructors_accept_nonpositive :
    (Queue.construct (some 0) none).isOk = true
    ∧ (Queue.new (some 0) none).getMaxConcurrency = 0
    ∧ (Queue.construct (some (-5)) none).isOk = true
    ∧ (Queue.new (some (-5)) none).getMaxConcurrency = -5
    ∧ (QueueManager.construct 0 (some (-2)) none).isOk = true
    ∧ (QueueManager.new 0 (some (-2)) none).concurrencyPerQueue = -2
    ∧ (QueueManager.new 0 (some (-2)) none).queues = [] := by
  decide

/-- C6 counterexample: a transition recorded after its job's batch has
been selected for flushing does not remain buffered.  Concretely: job 0
is buffered by `persistJob`, one flush selects it (deleting it from the
buffer), and the next `updateJobStatus(0, completed)` finds the buffer
without the id and goes straight to the database: the buffer stays
empty for the next cycle. -/
theorem c6_post_flush_transition_not_buffered :
    ((((PersistenceService.mk []
          [] 1).persistJob
        { id := 0, data := 1, createdAt := 5, status := .pending,
          timeoutMs := some 1000 } 0).flushPendingJobs).updateJobStatus 0 .completed none
        9).pendingSyncJobs = []
    ∧ ((((PersistenceService.mk []
          [] 1).persistJob
        { id := 0, data := 1, createdAt := 5, status := .pending,
          timeoutMs := some 1000 } 0).flushPendingJobs).updateJobStatus 0 .completed none
        9).db.map (fun r => (r.id, r.status)) = [(0, JobStatus.completed)] := by
  decide

/-- C5 amended claim: non-positive values are rejected synchronously by
the update-time entrypoints (`updateQueueCount`,
`updateConcurrencyPerQueue`); the constructors perform no validation at
all and never raise. -/
theorem c5_amended_rejection_only_at_update_time :
    (∀ (m : QueueManager) (n : Int) (now : Nat), n ≤ 0 →
      m.updateQueueCount n now = Except.error "Queue count must be greater than 0")
    ∧ (∀ (m : QueueManager) (n : Int) (now : Nat), n ≤ 0 →
      m.updateConcurrencyPerQueue n now = Except.error "Concurrency must be greater than 0")
    ∧ (∀ (c : Option Int) (d : Option Nat), (Queue.construct c d).isOk = true)
    ∧ (∀ (qc : Int) (c : Option Int) (t : Option Nat),
      (QueueManager.construct qc c t).isOk = true) := by
  refine ⟨fun m n now h => ?_, fun m n now h => ?_, fun c d => rfl, fun qc c t => rfl⟩
  · simp [QueueManager.updateQueueCount, h]
  · simp [QueueManager.updateConcurrencyPerQueue, h]

/-- Witness for the C5 amended claim at concrete inputs. -/
theorem c5_amended_witness :
    (QueueManager.new 1 (some 1) none).updateQueueCount 0 0
      = Except.error "Queue count must be greater than 0"
    ∧ (QueueManager.new 1 (some 1) none).updateConcurrencyPerQueue (-1) 0
      = Except.error "Concurrency must be greater than 0"
    ∧ (Queue.construct (some 2) none).isOk = true :=
  ⟨c5_amended_rejection_only_at_update_time.1 (QueueManager.new 1 (some 1) none) 0 0
      (by decide),
    c5_amended_rejection_only_at_update_time.2.1 (QueueManager.new 1 (some 1) none) (-1) 0
      (by decide),
    c5_amended_rejection_only_at_update_time.2.2.1 (some 2) none⟩

theorem find?_map_keyed_update (l : List BufJob) (jobId : Nat) (f : BufJob → BufJob)
    (hf : ∀ b, (f b).job.id = b.job.id) :
    (l.map (fun b => if b.job.id == jobId then f b else b)).find?
        (fun b => b.job.id == jobId)
      = (l.find? (fun b => b.job.id == jobId)).map f := by
  induction l with
  | nil => simp
  | cons b rest ih =>
      by_cases hb : b.job.id = jobId
      · simp [List.find?, hb, hf]
      · simp only [List.map_cons, List.find?]
        rw [if_neg (by simp [hb])]
        simp only [show (b.job.id == jobId) = false by simp [hb]]
        exact ih

theorem any_map_keyed_update (l : List BufJob) (jobId : Nat) (f : BufJob → BufJob)
    (hf : ∀ b, (f b).job.id = b.job.id) :
    (l.map (fun b => if b.job.id == jobId then f b else b)).any
        (fun b => b.job.id == jobId)
      = l.any (fun b => b.job.id == jobId) := by
  induction l with
  | nil => simp
  | cons b rest ih =>
      by_cases hb : b.job.id = jobId
      · simp [hb, hf]
      · simp only [List.map_cons, List.any_cons]
        rw [if_neg (by simp [hb])]
        rw [ih]

theorem applyStatusUpdate_id (b : BufJob) (s : JobStatus) (e : Option String) (n : Nat) :
    (b.applyStatusUpdate s e n).job.id = b.job.id := rfl

theorem applyStatusUpdate_status (b : BufJob) (s : JobStatus) (e : Option String) (n : Nat) :
    (b.applyStatusUpdate s e n).job.status = s := rfl

theorem updateJobStatus_of_buffered (ps : PersistenceService) (jobId : Nat) (s : JobStatus)
    (e : Option String) (n : Nat)
    (h : ps.pendingSyncJobs.any (fun b => b.job.id == jobId) = true) :
    ps.updateJobStatus jobId s e n
      = { ps with
          pendingSyncJobs :=
            (ps.pendingSyncJobs.map
              (fun b => if b.job.id == jobId then b.applyStatusUpdate s e n else b)) } := by
  simp only [PersistenceService.updateJobStatus, h, if_pos]

theorem updateJobStatus_of_flushed (ps : PersistenceService) (jobId : Nat) (s : JobStatus)
    (e : Option String) (n : Nat)
    (h : ps.pendingSyncJobs.any (fun b => b.job.id == jobId) = false) :
    ps.updateJobStatus jobId s e n
      = { ps with
          db :=
            (ps.db.map
              (fun r => if r.id == jobId then r.applyDirectUpdate s e n else r)) } := by
  simp only [PersistenceService.updateJobStatus, h, Bool.false_eq_true, if_false]

/-- C6 amended claim: a lifecycle transition for a job still present in
the in-memory buffer is collapsed into the buffered entry
(last-writer-wins) and touches nothing else; a transition for a job no
longer buffered (its batch was already selected and flushed) is *not*
re-buffered — it is written directly and synchronously to storage
instead, leaving the buffer unchanged. -/
theorem c6_amended_transition_buffering (ps : PersistenceService) (jobId : Nat)
    (s1 s2 : JobStatus) (e1 e2 : Option String) (t1 t2 : Nat) :
    (ps.pendingSyncJobs.any (fun b => b.job.id == jobId) = true →
      (ps.updateJobStatus jobId s1 e1 t1).db = ps.db
      ∧ ((ps.updateJobStatus jobId s1 e1 t1).pendingSyncJobs.find?
            (fun b => b.job.id == jobId)).map (fun b => b.job.status) = some s1
      ∧ (((ps.updateJobStatus jobId s1 e1 t1).updateJobStatus jobId s2 e2 t2
            ).pendingSyncJobs.find? (fun b => b.job.id == jobId)).map
          (fun b => b.job.status) = some s2)
    ∧ (ps.pendingSyncJobs.any (fun b => b.job.id == jobId) = false →
      (ps.updateJobStatus jobId s1 e1 t1).pendingSyncJobs = ps.pendingSyncJobs
      ∧ (ps.updateJobStatus jobId s1 e1 t1).db
          = ps.db.map (fun r => if r.id == jobId then r.applyDirectUpdate s1 e1 t1 else r)) := by
  constructor
  · intro h
    have hbuf1 : (ps.updateJobStatus jobId s1 e1 t1).pendingSyncJobs
        = ps.pendingSyncJobs.map
            (fun b => if b.job.id == jobId then b.applyStatusUpdate s1 e1 t1 else b) := by
      rw [updateJobStatus_of_buffered ps jobId s1 e1 t1 h]
    have hsome : ∃ b, ps.pendingSyncJobs.find? (fun b => b.job.id == jobId) = some b := by
      cases hfd : ps.pendingSyncJobs.find? (fun b => b.job.id == jobId) with
      | some b => exact ⟨b, rfl⟩
      | none =>
          rcases List.any_eq_true.mp h with ⟨b, hb, hp⟩
          exact absurd hp (by simpa using List.find?_eq_none.mp hfd b hb)
    rcases hsome with ⟨b0, hb0⟩
    have hfind1 : (ps.updateJobStatus jobId s1 e1 t1).pendingSyncJobs.find?
        (fun b => b.job.id == jobId) = some (b0.applyStatusUpdate s1 e1 t1) := by
      rw [hbuf1, find?_map_keyed_update _ _ _ (fun b => applyStatusUpdate_id b s1 e1 t1), hb0]
      rfl
    have hany1 : (ps.updateJobStatus jobId s1 e1 t1).pendingSyncJobs.any
        (fun b => b.job.id == jobId) = true := by
      rw [hbuf1, any_map_keyed_update _ _ _ (fun b => applyStatusUpdate_id b s1 e1 t1)]
      exact h
    refine ⟨?_, ?_, ?_⟩
    · rw [updateJobStatus_of_buffered ps jobId s1 e1 t1 h]
    · rw [hfind1]
      simp [applyStatusUpdate_status]
    · rw [updateJobStatus_of_buffered _ jobId s2 e2 t2 hany1,
        find?_map_keyed_update _ _ _ (fun b => applyStatusUpdate_id b s2 e2 t2), hfind1]
      simp [applyStatusUpdate_status]
  · intro h
    constructor
    · rw [updateJobStatus_of_flushed ps jobId s1 e1 t1 h]
    · rw [updateJobStatus_of_flushed ps jobId s1 e1 t1 h]

/-- Witness for the C6 amended claim at a concrete state: one buffered
job receives two further transitions (collapsing to the last), and a
state with an empty buffer routes the transition straight to storage. -/
theorem c6_amended_witness :
    ((PersistenceService.mk
        [{ job := { id := 0, data := 1, createdAt := 5, status := .pending,
                    timeoutMs := some 1000 }, queueIndex := 0 }] [] 10).updateJobStatus
        0 .running none 6).db = []
    ∧ ((((PersistenceService.mk
        [{ job := { id := 0, data := 1, createdAt := 5, status := .pending,
                    timeoutMs := some 1000 }, queueIndex := 0 }] [] 10).updateJobStatus
        0 .running none 6).updateJobStatus 0 .completed none 7).pendingSyncJobs.find?
          (fun b => b.job.id == 0)).map (fun b => b.job.status) = some .completed
    ∧ ((PersistenceService.mk [] [] 10).updateJobStatus 0 .completed none 7).pendingSyncJobs
        = [] := by
  refine ⟨?_, ?_, ?_⟩
  · exact (c6_amended_transition_buffering
      (PersistenceService.mk
        [{ job := { id := 0, data := 1, createdAt := 5, status := .pending,
                    timeoutMs := some 1000 }, queueIndex := 0 }] [] 10)
      0 .running .completed none none 6 7).1 (by decide) |>.1
  · exact (c6_amended_transition_buffering
      (PersistenceService.mk
        [{ job := { id := 0, data := 1, createdAt := 5, status := .pending,
                    timeoutMs := some 1000 }, queueIndex := 0 }] [] 10)
      0 .running .completed none none 6 7).1 (by decide) |>.2.2
  · exact ((c6_amended_transition_buffering (PersistenceService.mk [] [] 10)
      0 .completed .completed none none 7 7).2 (by decide)).1

theorem Queue.startJob_WF (q : Queue) (job : Job) (now : Nat) (hwf : q.WF) :
    (q.startJob job now).WF := by
  obtain ⟨h1, h2, h3⟩ := hwf
  refine ⟨h1, ?_, h3⟩
  intro j hj
  rcases List.mem_append.mp hj with hj | hj
  · exact h2 j hj
  · rcases List.mem_singleton.mp hj with rfl
    rfl

theorem Queue.startLoop_spec (n : Nat) (q : Queue) (now : Nat) :
    (q.startLoop n now).runningJobs.length ≤ q.runningJobs.length + n
    ∧ (q.startLoop n now).concurrency = q.concurrency
    ∧ (q.WF → (q.startLoop n now).WF) := by
  induction n generalizing q with
  | zero => exact ⟨Nat.le_add_right _ _, rfl, fun h => h⟩
  | succ k ih =>
      obtain ⟨qq, qr, qf, qc, qd, qa, qw⟩ := q
      cases qq with
      | nil => exact ⟨Nat.le_add_right _ _, rfl, fun h => h⟩
      | cons job rest =>
          have hred : Queue.startLoop ⟨job :: rest, qr, qf, qc, qd, qa, qw⟩ (k + 1) now
              = Queue.startLoop
                  (Queue.startJob ⟨rest, qr, qf, qc, qd, qa, qw⟩ job now) k now := rfl
          rw [hred]
          obtain ⟨ihl, ihc, ihw⟩ := ih (Queue.startJob ⟨rest, qr, qf, qc, qd, qa, qw⟩ job now)
          refine ⟨?_, ihc, ?_⟩
          · have hsj : (Queue.startJob ⟨rest, qr, qf, qc, qd, qa, qw⟩ job now).runningJobs.length
                = qr.length + 1 := by
              simp [Queue.startJob]
            show _ ≤ qr.length + (k + 1)
            omega
          · intro hwf
            refine ihw (Queue.startJob_WF _ job now ?_)
            obtain ⟨h1, h2, h3⟩ := hwf
            exact ⟨fun j hj => h1 j (List.mem_cons_of_mem _ hj), h2, h3⟩

theorem Queue.processNextJobs_inv (q : Queue) (now : Nat) (hwf : q.WF) (hb : q.RunBound) :
    (q.processNextJobs now).WF ∧ (q.processNextJobs now).RunBound := by
  unfold Queue.processNextJobs
  split
  · exact ⟨hwf, hb⟩
  · next h =>
      push_neg at h
      obtain ⟨hlt, -⟩ := h
      dsimp only
      obtain ⟨hlen, hcon, hw⟩ := Queue.startLoop_spec
        (min (q.concurrency - (q.runningJobs.length : Int)) (q.queue.length : Int)).toNat q now
      refine ⟨hw hwf, ?_⟩
      unfold Queue.RunBound
      rw [hcon]
      have hmin : (min (q.concurrency - (q.runningJobs.length : Int))
          (q.queue.length : Int)).toNat
          ≤ (q.concurrency - (q.runningJobs.length : Int)).toNat :=
        Int.toNat_le_toNat (min_le_left _ _)
      have hc : 0 < q.concurrency - (q.runningJobs.length : Int) := by omega
      omega

theorem finalize_lists_inv (run fin : List Job) (hit : Job → Bool) (fz : Job → Job)
    (hfz : ∀ j, ((fz j).status).isTerminal = true)
    (hrun : ∀ j ∈ run, j.status = JobStatus.running)
    (hfin : ∀ j ∈ fin, (j.status).isTerminal = true) :
    (∀ j ∈ run.filter (fun j => !hit j), j.status = JobStatus.running)
    ∧ (∀ j ∈ (fin.map (fun j => if hit j then fz j else j)
        ++ (run.filter hit).map fz), (j.status).isTerminal = true)
    ∧ (run.filter (fun j => !hit j)).length ≤ run.length := by
  refine ⟨?_, ?_, List.length_filter_le _ _⟩
  · intro j hj
    exact hrun j (List.mem_of_mem_filter hj)
  · intro j hj
    rcases List.mem_append.mp hj with hj | hj
    · rcases List.mem_map.mp hj with ⟨a, ha, rfl⟩
      by_cases hha : hit a
      · simpa [hha] using hfz a
      · simpa [hha] using hfin a ha
    · rcases List.mem_map.mp hj with ⟨a, _, rfl⟩
      exact hfz a

theorem Queue.applyOp_inv (q : Queue) (op : LaneOp) (now : Nat)
    (h : q.WF ∧ q.RunBound) : (q.applyOp op now).WF ∧ (q.applyOp op now).RunBound := by
  obtain ⟨⟨h1, h2, h3⟩, hb⟩ := h
  cases op with
  | submit data t jobId =>
      refine ⟨⟨?_, h2, h3⟩, hb⟩
      intro j hj
      rcases List.mem_append.mp hj with hj | hj
      · exact h1 j hj
      · rcases List.mem_singleton.mp hj with rfl
        rfl
  | tick =>
      show (q.tick now).WF ∧ (q.tick now).RunBound
      unfold Queue.tick
      split
      · exact Queue.processNextJobs_inv q now ⟨h1, h2, h3⟩ hb
      · exact ⟨⟨h1, h2, h3⟩, hb⟩
  | complete jobId =>
      obtain ⟨g1, g2, g3⟩ := finalize_lists_inv q.runningJobs q.finished
        (fun j => j.hearsComplete jobId) (fun j => j.finalizeComplete now)
        (fun j => rfl) h2 h3
      refine ⟨⟨h1, g1, g2⟩, ?_⟩
      show ((q.runningJobs.filter (fun j => !j.hearsComplete jobId)).length : Int)
        ≤ q.concurrency
      calc ((q.runningJobs.filter (fun j => !j.hearsComplete jobId)).length : Int)
          ≤ (q.runningJobs.length : Int) := by exact_mod_cast g3
        _ ≤ q.concurrency := hb
  | fail jobId e =>
      obtain ⟨g1, g2, g3⟩ := finalize_lists_inv q.runningJobs q.finished
        (fun j => j.hearsFail jobId) (fun j => j.finalizeFail e now)
        (fun j => rfl) h2 h3
      refine ⟨⟨h1, g1, g2⟩, ?_⟩
      show ((q.runningJobs.filter (fun j => !j.hearsFail jobId)).length : Int)
        ≤ q.concurrency
      calc ((q.runningJobs.filter (fun j => !j.hearsFail jobId)).length : Int)
          ≤ (q.runningJobs.length : Int) := by exact_mod_cast g3
        _ ≤ q.concurrency := hb
  | fireTimeout jobId =>
      obtain ⟨g1, g2, g3⟩ := finalize_lists_inv q.runningJobs q.finished
        (fun j => j.timerHits jobId) (fun j => j.finalizeTimeout now)
        (fun j => rfl) h2 h3
      refine ⟨⟨h1, g1, g2⟩, ?_⟩
      show ((q.runningJobs.filter (fun j => !j.timerHits jobId)).length : Int)
        ≤ q.concurrency
      calc ((q.runningJobs.filter (fun j => !j.timerHits jobId)).length : Int)
          ≤ (q.runningJobs.length : Int) := by exact_mod_cast g3
        _ ≤ q.concurrency := hb
  | pause => exact ⟨⟨h1, h2, h3⟩, hb⟩
  | resume => exact ⟨⟨h1, h2, h3⟩, hb⟩
  | shutdown => exact ⟨⟨h1, h2, h3⟩, hb⟩

theorem Queue.applyOp_concurrency (q : Queue) (op : LaneOp) (now : Nat) :
    (q.applyOp op now).concurrency = q.concurrency := by
  cases op with
  | submit data t jobId => rfl
  | tick =>
      show (q.tick now).concurrency = q.concurrency
      unfold Queue.tick
      split
      · unfold Queue.processNextJobs
        split
        · rfl
        · exact (Queue.startLoop_spec _ q now).2.1
      · rfl
  | complete jobId => rfl
  | fail jobId e => rfl
  | fireTimeout jobId => rfl
  | pause => rfl
  | resume => rfl
  | shutdown => rfl

theorem Queue.runOps_inv (ops : List (LaneOp × Nat)) (q : Queue)
    (h : q.WF ∧ q.RunBound) : (q.runOps ops).WF ∧ (q.runOps ops).RunBound := by
  induction ops generalizing q with
  | nil => exact h
  | cons p rest ih => exact ih _ (Queue.applyOp_inv q p.1 p.2 h)

theorem Queue.runOps_concurrency (ops : List (LaneOp × Nat)) (q : Queue) :
    (q.runOps ops).concurrency = q.concurrency := by
  induction ops generalizing q with
  | nil => rfl
  | cons p rest ih => rw [show q.runOps (p :: rest) = (q.applyOp p.1 p.2).runOps rest from rfl,
      ih, Queue.applyOp_concurrency]

theorem Queue.runningCount_of_WF (q : Queue) (hwf : q.WF) :
    q.allJobs.countP (fun j => j.status == JobStatus.running) = q.runningJobs.length := by
  obtain ⟨h1, h2, h3⟩ := hwf
  unfold Queue.allJobs
  rw [List.countP_append, List.countP_append]
  have e1 : q.queue.countP (fun j => j.status == JobStatus.running) = 0 := by
    rw [List.countP_eq_zero]
    intro j hj
    simp [h1 j hj]
  have e2 : q.runningJobs.countP (fun j => j.status == JobStatus.running)
      = q.runningJobs.length := by
    rw [List.countP_eq_length]
    intro j hj
    simp [h2 j hj]
  have e3 : q.finished.countP (fun j => j.status == JobStatus.running) = 0 := by
    rw [List.countP_eq_zero]
    intro j hj
    have ht := h3 j hj
    cases hst : j.status <;> simp_all [JobStatus.isTerminal]
  omega

/-- C7: confirmed.  For a lane constructed with a positive concurrency
cap, after any sequence of operations (submissions, worker ticks,
completion and failure signals, timer firings, pause/resume/shutdown)
the number of job objects whose status is running never exceeds the
cap. -/
theorem c7_running_never_exceeds_cap (cap : Int) (tmo : Option Nat)
    (ops : List (LaneOp × Nat)) (hcap : 0 < cap) :
    ((((Queue.new (some cap) tmo).runOps ops).allJobs.countP
        (fun j => j.status == JobStatus.running) : Int)) ≤ cap := by
  have hinit : (Queue.new (some cap) tmo).WF ∧ (Queue.new (some cap) tmo).RunBound := by
    refine ⟨⟨?_, ?_, ?_⟩, ?_⟩
    · intro j hj
      simp [Queue.new] at hj
    · intro j hj
      simp [Queue.new] at hj
    · intro j hj
      simp [Queue.new] at hj
    · show (([] : List Job).length : Int) ≤ (Option.some cap).getD 1
      simp
      omega
  obtain ⟨hwf, hb⟩ := Queue.runOps_inv ops _ hinit
  rw [Queue.runningCount_of_WF _ hwf]
  have hc := Queue.runOps_concurrency ops (Queue.new (some cap) tmo)
  unfold Queue.RunBound at hb
  rw [hc] at hb
  simpa [Queue.new] using hb

/-- Witness for C7 at a concrete lane and operation sequence. -/
theorem c7_witness :
    (0 : Int) < 1
    ∧ ((((Queue.new (some 1) none).runOps
        [(.submit 5 none 0, 0), (.submit 6 none 1, 0), (.tick, 1)]).allJobs.countP
        (fun j => j.status == JobStatus.running) : Int)) ≤ 1 :=
  ⟨by decide,
    c7_running_never_exceeds_cap 1 none
      [(.submit 5 none 0, 0), (.submit 6 none 1, 0), (.tick, 1)] (by decide)⟩

theorem pickMin_spec (l : List (Nat × Nat)) (best : Nat × Nat)
    (hidx : ∀ p ∈ l, best.1 < p.1)
    (hsorted : l.Pairwise (fun a b => a.1 < b.1)) :
    (pickMin best l = best ∨ pickMin best l ∈ l)
    ∧ (pickMin best l).2 ≤ best.2
    ∧ (∀ p ∈ l, (pickMin best l).2 ≤ p.2)
    ∧ (best.1 < (pickMin best l).1 → (pickMin best l).2 < best.2)
    ∧ (∀ p ∈ l, p.1 < (pickMin best l).1 → (pickMin best l).2 < p.2) := by
  induction l generalizing best with
  | nil =>
      refine ⟨Or.inl rfl, le_refl _, ?_, ?_, ?_⟩
      · intro p hp
        exact absurd hp (List.not_mem_nil p)
      · intro hlt
        exact absurd hlt (lt_irrefl _)
      · intro p hp
        exact absurd hp (List.not_mem_nil p)
  | cons p rest ih =>
      obtain ⟨hp_rest, hsorted'⟩ := List.pairwise_cons.mp hsorted
      by_cases hbp : best.2 ≤ p.2
      · have hred : pickMin best (p :: rest) = pickMin best rest := by
          simp [pickMin, hbp]
        obtain ⟨m1, m2, m3, m4, m5⟩ := ih best
          (fun q hq => hidx q (List.mem_cons_of_mem p hq)) hsorted'
        rw [hred]
        refine ⟨?_, m2, ?_, m4, ?_⟩
        · rcases m1 with h | h
          · exact Or.inl h
          · exact Or.inr (List.mem_cons_of_mem p h)
        · intro q hq
          rcases List.mem_cons.mp hq with rfl | hq
          · exact le_trans m2 hbp
          · exact m3 q hq
        · intro q hq hlt
          rcases List.mem_cons.mp hq with rfl | hq
          · have hbq : best.1 < q.1 := hidx q (List.mem_cons_self q rest)
            exact lt_of_lt_of_le (m4 (lt_trans hbq hlt)) hbp
          · exact m5 q hq hlt
      · have hplt : p.2 < best.2 := Nat.lt_of_not_le hbp
        have hred : pickMin best (p :: rest) = pickMin p rest := by
          simp [pickMin, hbp]
        obtain ⟨m1, m2, m3, m4, m5⟩ := ih p hp_rest hsorted'
        rw [hred]
        refine ⟨?_, ?_, ?_, ?_, ?_⟩
        · rcases m1 with h | h
          · exact Or.inr (by rw [h]; exact List.mem_cons_self p rest)
          · exact Or.inr (List.mem_cons_of_mem p h)
        · exact le_trans m2 (le_of_lt hplt)
        · intro q hq
          rcases List.mem_cons.mp hq with rfl | hq
          · exact m2
          · exact m3 q hq
        · intro _
          exact lt_of_le_of_lt m2 hplt
        · intro q hq hlt
          rcases List.mem_cons.mp hq with rfl | hq
          · exact m4 hlt
          · exact m5 q hq hlt

theorem enumFrom_pairwise_fst (l : List Nat) (n : Nat) :
    (l.enumFrom n).Pairwise (fun a b => a.1 < b.1) := by
  induction l generalizing n with
  | nil => simp
  | cons t rest ih =>
      rw [List.enumFrom_cons]
      refine List.pairwise_cons.mpr ⟨?_, ih (n + 1)⟩
      intro q hq
      obtain ⟨h1, -, -⟩ := List.mem_enumFrom hq
      omega

theorem selectIdx_spec (ts : List Nat) (hne : ts ≠ []) :
    QueueManager.selectIdx ts < ts.length
    ∧ (∀ j, j < ts.length → ts.getD (QueueManager.selectIdx ts) 0 ≤ ts.getD j 0)
    ∧ (∀ j, j < QueueManager.selectIdx ts → ts.getD (QueueManager.selectIdx ts) 0 < ts.getD j 0) := by
  cases ts with
  | nil => exact absurd rfl hne
  | cons t rest =>
      have hsel : QueueManager.selectIdx (t :: rest) = (pickMin (0, t) (rest.enumFrom 1)).1 :=
        rfl
      obtain ⟨m1, m2, m3, m4, m5⟩ := pickMin_spec (rest.enumFrom 1) (0, t)
        (fun q hq => (List.mem_enumFrom hq).1) (enumFrom_pairwise_fst rest 1)
      have hmem : ∀ k, (hk : k < rest.length) →
          (1 + k, rest[k]) ∈ rest.enumFrom 1 := by
        intro k hk
        have hlen : k < (rest.enumFrom 1).length := by
          rw [List.enumFrom_length]
          exact hk
        have := List.getElem_enumFrom rest 1 k hlen
        rw [← this]
        exact List.getElem_mem hlen
      have hr1 : (pickMin (0, t) (rest.enumFrom 1)).1 < (t :: rest).length := by
        rcases m1 with h | h
        · rw [h]
          simp
        · obtain ⟨-, h2, -⟩ := List.mem_enumFrom (x := (pickMin (0, t) (rest.enumFrom 1)).2)
            (i := (pickMin (0, t) (rest.enumFrom 1)).1) h
          simp only [List.length_cons]
          omega
      have hrval : (t :: rest).getD (pickMin (0, t) (rest.enumFrom 1)).1 0
          = (pickMin (0, t) (rest.enumFrom 1)).2 := by
        rcases m1 with h | h
        · rw [h]
          rfl
        · obtain ⟨ha, hb, hc⟩ := List.mem_enumFrom (x := (pickMin (0, t) (rest.enumFrom 1)).2)
            (i := (pickMin (0, t) (rest.enumFrom 1)).1) h
          rcases Nat.exists_eq_add_of_le ha with ⟨k, hk⟩
          rw [hk]
          have hklen : k < rest.length := by omega
          have : (t :: rest).getD (1 + k) 0 = rest.getD k 0 := by
            rw [Nat.add_comm]
            rfl
          rw [this, List.getD_eq_getElem rest 0 hklen, hc]
          congr 1
          omega
      rw [hsel]
      refine ⟨hr1, ?_, ?_⟩
      · intro j hj
        cases j with
        | zero =>
            rw [hrval]
            exact m2
        | succ k =>
            have hklen : k < rest.length := by
              simp only [List.length_cons] at hj
              omega
            have : (t :: rest).getD (k + 1) 0 = rest[k] := by
              show rest.getD k 0 = rest[k]
              exact List.getD_eq_getElem rest 0 hklen
            rw [hrval, this]
            have := m3 (1 + k, rest[k]) (hmem k hklen)
            exact this
      · intro j hj
        cases j with
        | zero =>
            rw [hrval]
            exact m4 hj
        | succ k =>
            have hklen : k < rest.length := by
              simp only [List.length_cons] at hr1
              omega
            have hval : (t :: rest).getD (k + 1) 0 = rest[k] := by
              show rest.getD k 0 = rest[k]
              exact List.getD_eq_getElem rest 0 hklen
            rw [hrval, hval]
            refine m5 (1 + k, rest[k]) (hmem k hklen) ?_
            show 1 + k < _
            omega

/-- C8: confirmed.  For every non-empty lane set, the manager's
`addJob` selects the lane with the minimum `pending + running` total,
breaking ties by the lowest lane index (the `reduce` keeps the earlier
lane on `<=`), and delegates there: the selected lane's FIFO gains the
new pending job and every other lane is untouched.  The final conjunct
is the spec's concrete instance: with two cap-1 lanes each holding one
running job, a third submission goes pending to lane 0. -/
theorem c8_least_loaded_lowest_index (m : QueueManager) (hne : m.queues ≠ [])
    (data now : Nat) :
    QueueManager.selectIdx (m.queues.map Queue.totalJobs) < m.queues.length
    ∧ (∀ j, j < m.queues.length →
        (m.queues.getD (QueueManager.selectIdx (m.queues.map Queue.totalJobs))
            (Queue.new none none)).totalJobs
          ≤ (m.queues.getD j (Queue.new none none)).totalJobs)
    ∧ (∀ j, j < QueueManager.selectIdx (m.queues.map Queue.totalJobs) →
        (m.queues.getD (QueueManager.selectIdx (m.queues.map Queue.totalJobs))
            (Queue.new none none)).totalJobs
          < (m.queues.getD j (Queue.new none none)).totalJobs)
    ∧ ((m.addJob data now).1.queues.getD
          (QueueManager.selectIdx (m.queues.map Queue.totalJobs)) (Queue.new none none)).queue
        = (m.queues.getD (QueueManager.selectIdx (m.queues.map Queue.totalJobs))
            (Queue.new none none)).queue
          ++ [{ id := m.nextId, data := data, createdAt := now, status := JobStatus.pending,
                timeoutMs := some (m.queues.getD
                  (QueueManager.selectIdx (m.queues.map Queue.totalJobs))
                  (Queue.new none none)).defaultTimeout }]
    ∧ (∀ j, j ≠ QueueManager.selectIdx (m.queues.map Queue.totalJobs) →
        (m.addJob data now).1.queues.getD j (Queue.new none none)
          = m.queues.getD j (Queue.new none none))
    ∧ ((twoBusyLanes.addJob 102 3).1.queues.map
          (fun q => (q.queue.map (fun j => (j.id, j.status)),
            q.runningJobs.map (fun j => j.id)))
        = [([(2, JobStatus.pending)], [0]), ([], [1])]) := by
  have hts : (m.queues.map Queue.totalJobs) ≠ [] := by
    intro h
    exact hne (List.map_eq_nil_iff.mp h)
  obtain ⟨s1, s2, s3⟩ := selectIdx_spec (m.queues.map Queue.totalJobs) hts
  rw [List.length_map] at s1
  have hval : ∀ j, (hj : j < m.queues.length) →
      (m.queues.map Queue.totalJobs).getD j 0
        = (m.queues.getD j (Queue.new none none)).totalJobs := by
    intro j hj
    have hjm : j < (m.queues.map Queue.totalJobs).length := by
      rw [List.length_map]
      exact hj
    rw [List.getD_eq_getElem _ 0 hjm, List.getD_eq_getElem _ _ hj, List.getElem_map]
  have hset : (m.addJob data now).1.queues
      = m.queues.set (QueueManager.selectIdx (m.queues.map Queue.totalJobs))
          (((m.queues.getD (QueueManager.selectIdx (m.queues.map Queue.totalJobs))
            (Queue.new none none)).addJob data none m.nextId now).1) := rfl
  refine ⟨s1, ?_, ?_, ?_, ?_, by decide⟩
  · intro j hj
    rw [← hval _ s1, ← hval _ hj]
    exact s2 j (by rw [List.length_map]; exact hj)
  · intro j hj
    have hjlen : j < m.queues.length := lt_trans hj s1
    rw [← hval _ s1, ← hval _ hjlen]
    exact s3 j hj
  · rw [hset, List.getD_eq_getElem?_getD, List.getElem?_set_self s1]
    rfl
  · intro j hj
    rw [hset, List.getD_eq_getElem?_getD, List.getElem?_set_ne (fun h => hj h.symm),
      List.getD_eq_getElem?_getD]

/-- Witness for C8 at a concrete two-lane manager. -/
theorem c8_witness :
    twoBusyLanes.queues ≠ []
    ∧ QueueManager.selectIdx (twoBusyLanes.queues.map Queue.totalJobs) = 0 :=
  ⟨by decide,
    by
      have h := c8_least_loaded_lowest_index twoBusyLanes (by decide) 102 3
      have h1 := h.1
      have h3 := h.2.2.1
      by_contra hne0
      have h0 : 0 < QueueManager.selectIdx (twoBusyLanes.queues.map Queue.totalJobs) :=
        Nat.pos_of_ne_zero (fun h => hne0 h)
      have := h3 0 h0
      revert this
      decide⟩

theorem readArr_set_other (h : JSHeap) (r i : Nat) (xs : List Job) (hne : i ≠ r) :
    (h.writeArr r xs).readArr i = h.readArr i := by
  unfold JSHeap.writeArr JSHeap.readArr
  rw [List.getD_eq_getElem?_getD, List.getElem?_set_ne (fun hh => hne hh.symm),
    List.getD_eq_getElem?_getD]

/-- C10: confirmed.  `getPendingJobs()` and `getRunningJobs()` allocate
fresh array objects holding copies of the lane's internal arrays
(`[...this.queue]`, `[...this.runningJobs]`): the returned references
initially read equal to the internals, and rewriting the returned
arrays' contents arbitrarily (any additions/removals, modelled by the
functions `f` and `g`) leaves the lane's internal pending queue and
running set unchanged. -/
theorem c10_snapshots_are_defensive_copies (h : JSHeap) (refs : QueueRefs)
    (hq : refs.queueRef < h.arrs.length) (hr : refs.runningRef < h.arrs.length)
    (f g : List Job → List Job) :
    ((Queue.getRunningJobsAlloc (Queue.getPendingJobsAlloc h refs).1 refs).1.readArr
        (Queue.getPendingJobsAlloc h refs).2 = h.readArr refs.queueRef)
    ∧ ((Queue.getRunningJobsAlloc (Queue.getPendingJobsAlloc h refs).1 refs).1.readArr
        (Queue.getRunningJobsAlloc (Queue.getPendingJobsAlloc h refs).1 refs).2
        = h.readArr refs.runningRef)
    ∧ ((((Queue.getRunningJobsAlloc (Queue.getPendingJobsAlloc h refs).1 refs).1.writeArr
          (Queue.getPendingJobsAlloc h refs).2
          (f ((Queue.getRunningJobsAlloc (Queue.getPendingJobsAlloc h refs).1 refs).1.readArr
            (Queue.getPendingJobsAlloc h refs).2))).writeArr
          (Queue.getRunningJobsAlloc (Queue.getPendingJobsAlloc h refs).1 refs).2
          (g ((Queue.getRunningJobsAlloc (Queue.getPendingJobsAlloc h refs).1 refs).1.readArr
            (Queue.getRunningJobsAlloc (Queue.getPendingJobsAlloc h refs).1 refs).2))).readArr
          refs.queueRef
        = h.readArr refs.queueRef)
    ∧ ((((Queue.getRunningJobsAlloc (Queue.getPendingJobsAlloc h refs).1 refs).1.writeArr
          (Queue.getPendingJobsAlloc h refs).2
          (f ((Queue.getRunningJobsAlloc (Queue.getPendingJobsAlloc h refs).1 refs).1.readArr
            (Queue.getPendingJobsAlloc h refs).2))).writeArr
          (Queue.getRunningJobsAlloc (Queue.getPendingJobsAlloc h refs).1 refs).2
          (g ((Queue.getRunningJobsAlloc (Queue.getPendingJobsAlloc h refs).1 refs).1.readArr
            (Queue.getRunningJobsAlloc (Queue.getPendingJobsAlloc h refs).1 refs).2))).readArr
          refs.runningRef
        = h.readArr refs.runningRef) := by
  have e1 : (Queue.getPendingJobsAlloc h refs).1.arrs
      = h.arrs ++ [h.arrs.getD refs.queueRef []] := rfl
  have e2 : (Queue.getPendingJobsAlloc h refs).2 = h.arrs.length := rfl
  have e3 : (Queue.getRunningJobsAlloc (Queue.getPendingJobsAlloc h refs).1 refs).1.arrs
      = (h.arrs ++ [h.arrs.getD refs.queueRef []])
        ++ [(h.arrs ++ [h.arrs.getD refs.queueRef []]).getD refs.runningRef []] := rfl
  have e4 : (Queue.getRunningJobsAlloc (Queue.getPendingJobsAlloc h refs).1 refs).2
      = h.arrs.length + 1 := by
    show (h.arrs ++ [h.arrs.getD refs.queueRef []]).length = h.arrs.length + 1
    simp
  have hBr : (h.arrs ++ [h.arrs.getD refs.queueRef []]).getD refs.runningRef []
      = h.arrs.getD refs.runningRef [] := List.getD_append _ _ _ _ hr
  have c1 : (Queue.getRunningJobsAlloc (Queue.getPendingJobsAlloc h refs).1 refs).1.readArr
      (Queue.getPendingJobsAlloc h refs).2 = h.readArr refs.queueRef := by
    show ((h.arrs ++ [h.arrs.getD refs.queueRef []])
        ++ [(h.arrs ++ [h.arrs.getD refs.queueRef []]).getD refs.runningRef []]).getD
        h.arrs.length [] = h.arrs.getD refs.queueRef []
    rw [List.getD_append _ _ _ _ (by simp), List.getD_eq_getElem?_getD,
      List.getElem?_concat_length]
    rfl
  have c2 : (Queue.getRunningJobsAlloc (Queue.getPendingJobsAlloc h refs).1 refs).1.readArr
      (Queue.getRunningJobsAlloc (Queue.getPendingJobsAlloc h refs).1 refs).2
      = h.readArr refs.runningRef := by
    rw [e4]
    show ((h.arrs ++ [h.arrs.getD refs.queueRef []])
        ++ [(h.arrs ++ [h.arrs.getD refs.queueRef []]).getD refs.runningRef []]).getD
        (h.arrs.length + 1) [] = h.arrs.getD refs.runningRef []
    have hlen : (h.arrs ++ [h.arrs.getD refs.queueRef []]).length = h.arrs.length + 1 := by
      simp
    rw [← hlen, List.getD_eq_getElem?_getD, List.getElem?_concat_length]
    exact hBr
  refine ⟨c1, c2, ?_, ?_⟩
  · rw [readArr_set_other _ _ _ _ (by rw [e4]; omega),
      readArr_set_other _ _ _ _ (by rw [e2]; omega)]
    show ((h.arrs ++ [h.arrs.getD refs.queueRef []])
        ++ [(h.arrs ++ [h.arrs.getD refs.queueRef []]).getD refs.runningRef []]).getD
        refs.queueRef [] = h.arrs.getD refs.queueRef []
    rw [List.getD_append _ _ _ _ (by simp; omega), List.getD_append _ _ _ _ hq]
  · rw [readArr_set_other _ _ _ _ (by rw [e4]; omega),
      readArr_set_other _ _ _ _ (by rw [e2]; omega)]
    show ((h.arrs ++ [h.arrs.getD refs.queueRef []])
        ++ [(h.arrs ++ [h.arrs.getD refs.queueRef []]).getD refs.runningRef []]).getD
        refs.runningRef [] = h.arrs.getD refs.runningRef []
    rw [List.getD_append _ _ _ _ (by simp; omega), List.getD_append _ _ _ _ hr]

/-- Witness for C10 at a concrete two-array heap with a job in each
internal array and mutations that clear one copy and extend the
other. -/
theorem c10_witness :
    (((Queue.getRunningJobsAlloc
        (Queue.getPendingJobsAlloc
          (JSHeap.mk [[{ id := 0, data := 1, createdAt := 0, status := .pending,
                          timeoutMs := some 5 }],
                      [{ id := 1, data := 2, createdAt := 0, status := .running,
                          timeoutMs := some 5 }]])
          (QueueRefs.mk 0 1)).1 (QueueRefs.mk 0 1)).1.writeArr
        (Queue.getPendingJobsAlloc
          (JSHeap.mk [[{ id := 0, data := 1, createdAt := 0, status := .pending,
                          timeoutMs := some 5 }],
                      [{ id := 1, data := 2, createdAt := 0, status := .running,
                          timeoutMs := some 5 }]])
          (QueueRefs.mk 0 1)).2
        ((fun _ => []) ((Queue.getRunningJobsAlloc
          (Queue.getPendingJobsAlloc
            (JSHeap.mk [[{ id := 0, data := 1, createdAt := 0, status := .pending,
                            timeoutMs := some 5 }],
                        [{ id := 1, data := 2, createdAt := 0, status := .running,
                            timeoutMs := some 5 }]])
            (QueueRefs.mk 0 1)).1 (QueueRefs.mk 0 1)).1.readArr
          (Queue.getPendingJobsAlloc
            (JSHeap.mk [[{ id := 0, data := 1, createdAt := 0, status := .pending,
                            timeoutMs := some 5 }],
                        [{ id := 1, data := 2, createdAt := 0, status := .running,
                            timeoutMs := some 5 }]])
            (QueueRefs.mk 0 1)).2))).writeArr
        (Queue.getRunningJobsAlloc
          (Queue.getPendingJobsAlloc
            (JSHeap.mk [[{ id := 0, data := 1, createdAt := 0, status := .pending,
                            timeoutMs := some 5 }],
                        [{ id := 1, data := 2, createdAt := 0, status := .running,
                            timeoutMs := some 5 }]])
            (QueueRefs.mk 0 1)).1 (QueueRefs.mk 0 1)).2
        ((fun xs => xs ++ xs) ((Queue.getRunningJobsAlloc
          (Queue.getPendingJobsAlloc
            (JSHeap.mk [[{ id := 0, data := 1, createdAt := 0, status := .pending,
                            timeoutMs := some 5 }],
                        [{ id := 1, data := 2, createdAt := 0, status := .running,
                            timeoutMs := some 5 }]])
            (QueueRefs.mk 0 1)).1 (QueueRefs.mk 0 1)).1.readArr
          (Queue.getRunningJobsAlloc
            (Queue.getPendingJobsAlloc
              (JSHeap.mk [[{ id := 0, data := 1, createdAt := 0, status := .pending,
                              timeoutMs := some 5 }],
                          [{ id := 1, data := 2, createdAt := 0, status := .running,
                              timeoutMs := some 5 }]])
              (QueueRefs.mk 0 1)).1 (QueueRefs.mk 0 1)).2))).readArr 0
      = (JSHeap.mk [[{ id := 0, data := 1, createdAt := 0, status := .pending,
                        timeoutMs := some 5 }],
                    [{ id := 1, data := 2, createdAt := 0, status := .running,
                        timeoutMs := some 5 }]]).readArr 0 :=
  (c10_snapshots_are_defensive_copies
    (JSHeap.mk [[{ id := 0, data := 1, createdAt := 0, status := .pending,
                    timeoutMs := some 5 }],
                [{ id := 1, data := 2, createdAt := 0, status := .running,
                    timeoutMs := some 5 }]])
    (QueueRefs.mk 0 1) (by decide) (by decide) (fun _ => []) (fun xs => xs ++ xs)).2.2.1

theorem QueueManager.addJob_queues_length (m : QueueManager) (data now : Nat) :
    (m.addJob data now).1.queues.length = m.queues.length := by
  show (m.queues.set _ _).length = _
  exact List.length_set _ _ _

theorem QueueManager.addJob_nextId (m : QueueManager) (data now : Nat) :
    (m.addJob data now).1.nextId = m.nextId + 1 := rfl

theorem QueueManager.addJob_pending_persist (m : QueueManager) (data now i : Nat) (j : Job)
    (hj : j ∈ (m.queues.getD i (Queue.new none none)).queue) :
    j ∈ ((m.addJob data now).1.queues.getD i (Queue.new none none)).queue := by
  have hset : (m.addJob data now).1.queues
      = m.queues.set (QueueManager.selectIdx (m.queues.map Queue.totalJobs))
          (((m.queues.getD (QueueManager.selectIdx (m.queues.map Queue.totalJobs))
            (Queue.new none none)).addJob data none m.nextId now).1) := rfl
  by_cases hi : i = QueueManager.selectIdx (m.queues.map Queue.totalJobs)
  · subst hi
    by_cases hlt : QueueManager.selectIdx (m.queues.map Queue.totalJobs) < m.queues.length
    · rw [hset, List.getD_eq_getElem?_getD, List.getElem?_set_self hlt]
      exact List.mem_append_left _ hj
    · rw [hset, List.set_eq_of_length_le (by omega)]
      exact hj
  · rw [hset, List.getD_eq_getElem?_getD, List.getElem?_set_ne (fun hh => hi hh.symm),
      ← List.getD_eq_getElem?_getD]
    exact hj

theorem foldAdd_queues_length (jobs : List Job) (m : QueueManager) (now : Nat) :
    (jobs.foldl (fun acc job => (acc.addJob job.data now).1) m).queues.length
      = m.queues.length := by
  induction jobs generalizing m with
  | nil => rfl
  | cons job rest ih =>
      rw [show (job :: rest).foldl (fun acc job => (acc.addJob job.data now).1) m
          = rest.foldl (fun acc job => (acc.addJob job.data now).1)
            ((m.addJob job.data now).1) from rfl,
        ih, QueueManager.addJob_queues_length]

theorem foldAdd_pending_persist (jobs : List Job) (m : QueueManager) (now i : Nat) (j : Job)
    (hj : j ∈ (m.queues.getD i (Queue.new none none)).queue) :
    j ∈ ((jobs.foldl (fun acc job => (acc.addJob job.data now).1) m).queues.getD i
        (Queue.new none none)).queue := by
  induction jobs generalizing m with
  | nil => exact hj
  | cons job rest ih =>
      exact ih (m.addJob job.data now).1
        (QueueManager.addJob_pending_persist m job.data now i j hj)

theorem foldAdd_nextId_le (jobs : List Job) (m : QueueManager) (now : Nat) :
    m.nextId ≤ (jobs.foldl (fun acc job => (acc.addJob job.data now).1) m).nextId := by
  induction jobs generalizing m with
  | nil => exact le_refl _
  | cons job rest ih =>
      have h := ih (m.addJob job.data now).1
      rw [QueueManager.addJob_nextId] at h
      exact le_trans (Nat.le_succ _) h

theorem foldAdd_places_every_job (jobs : List Job) (m : QueueManager) (now : Nat)
    (hne : m.queues ≠ []) :
    ∀ job ∈ jobs,
      ∃ i, i < (jobs.foldl (fun acc job => (acc.addJob job.data now).1) m).queues.length
        ∧ ∃ j' ∈ ((jobs.foldl (fun acc job => (acc.addJob job.data now).1) m).queues.getD i
              (Queue.new none none)).queue,
            j'.data = job.data ∧ j'.status = JobStatus.pending ∧ m.nextId ≤ j'.id := by
  induction jobs generalizing m with
  | nil =>
      intro job hjob
      exact absurd hjob (List.not_mem_nil job)
  | cons job rest ih =>
      intro job0 hjob0
      have hts : m.queues.map Queue.totalJobs ≠ [] := by
        intro h
        exact hne (List.map_eq_nil_iff.mp h)
      have hsel : QueueManager.selectIdx (m.queues.map Queue.totalJobs) < m.queues.length := by
        have := (selectIdx_spec _ hts).1
        rwa [List.length_map] at this
      have hredf : (job :: rest).foldl (fun acc job => (acc.addJob job.data now).1) m
          = rest.foldl (fun acc job => (acc.addJob job.data now).1)
            ((m.addJob job.data now).1) := rfl
      rcases List.mem_cons.mp hjob0 with rfl | hjob0
      · -- the head job is enqueued now with id = m.nextId and persists
        refine ⟨QueueManager.selectIdx (m.queues.map Queue.totalJobs), ?_, ?_⟩
        · rw [hredf, foldAdd_queues_length, QueueManager.addJob_queues_length]
          exact hsel
        · have hmem0 : ∃ j' ∈ ((m.addJob job0.data now).1.queues.getD
                (QueueManager.selectIdx (m.queues.map Queue.totalJobs))
                (Queue.new none none)).queue,
              j'.data = job0.data ∧ j'.status = JobStatus.pending ∧ j'.id = m.nextId := by
            have hset : (m.addJob job0.data now).1.queues
                = m.queues.set (QueueManager.selectIdx (m.queues.map Queue.totalJobs))
                    (((m.queues.getD (QueueManager.selectIdx (m.queues.map Queue.totalJobs))
                      (Queue.new none none)).addJob job0.data none m.nextId now).1) := rfl
            rw [hset, List.getD_eq_getElem?_getD, List.getElem?_set_self hsel]
            exact ⟨_, List.mem_append_right _ (List.mem_singleton.mpr rfl), rfl, rfl, rfl⟩
          rcases hmem0 with ⟨j0, hj0mem, hj0d, hj0s, hj0i⟩
          rw [hredf]
          exact ⟨j0, foldAdd_pending_persist rest (m.addJob job0.data now).1 now _ _ hj0mem,
            hj0d, hj0s, le_of_eq hj0i.symm⟩
      · rcases ih (m.addJob job.data now).1
            (by
              have h := QueueManager.addJob_queues_length m job.data now
              intro hnil
              rw [hnil] at h
              exact hne (List.length_eq_zero.mp h.symm)) job0 hjob0
          with ⟨i, hi, j', hj', hdata, hstat, hid⟩
        refine ⟨i, by rwa [hredf], j', by rwa [hredf], hdata, hstat, ?_⟩
        rw [QueueManager.addJob_nextId] at hid
        omega

/-- C4 amended claim: on a shrinking resize (no-persistence
configuration), every job that was pending in a removed lane reappears
as a pending job with the same payload in one of the surviving lanes,
resubmitted through the normal submit path — but under a freshly
generated id distinct from the original: the original job id is lost.
Running jobs of removed lanes are dropped with their lanes. -/
theorem c4_amended_shrink_resubmits_data_fresh_id (m : QueueManager) (n : Int) (now : Nat)
    (h0 : 0 < n) (hlt : n < (m.queues.length : Int))
    (hfresh : ∀ q ∈ m.queues, ∀ j ∈ q.allJobs, j.id < m.nextId) :
    ∃ m', m.updateQueueCount n now = Except.ok m'
      ∧ m'.queues.length = n.toNat
      ∧ ∀ q ∈ m.queues.drop n.toNat, ∀ j ∈ q.getPendingJobs,
          ∃ i, i < m'.queues.length
            ∧ ∃ j' ∈ (m'.queues.getD i (Queue.new none none)).queue,
                j'.data = j.data ∧ j'.status = JobStatus.pending ∧ j'.id ≠ j.id := by
  have hred : m.updateQueueCount n now
      = Except.ok ((((m.queues.drop n.toNat).map Queue.getPendingJobs).flatten).foldl
          (fun acc job => (acc.addJob job.data now).1)
          { m with queues := m.queues.take n.toNat, queueCountOpt := n }) := by
    unfold QueueManager.updateQueueCount
    rw [if_neg (by omega)]
    dsimp only
    rw [if_neg (by omega), if_pos hlt]
  refine ⟨_, hred, ?_, ?_⟩
  · rw [foldAdd_queues_length]
    show (m.queues.take n.toNat).length = n.toNat
    rw [List.length_take]
    omega
  · intro q hq j hj
    have hcol : j ∈ ((m.queues.drop n.toNat).map Queue.getPendingJobs).flatten :=
      List.mem_flatten.mpr ⟨q.getPendingJobs, List.mem_map_of_mem Queue.getPendingJobs hq, hj⟩
    have hne : ({ m with
                  queues := m.queues.take n.toNat,
                  queueCountOpt := n } : QueueManager).queues ≠ [] := by
      apply List.ne_nil_of_length_pos
      show 0 < (m.queues.take n.toNat).length
      rw [List.length_take]
      omega
    rcases foldAdd_places_every_job _ _ now hne j hcol with ⟨i, hi, j', hj', hdata, hstat, hid⟩
    refine ⟨i, hi, j', hj', hdata, hstat, ?_⟩
    have hjid : j.id < m.nextId :=
      hfresh q (List.mem_of_mem_drop hq) j (List.mem_append_left _ (List.mem_append_left _ hj))
    have : m.nextId ≤ j'.id := hid
    omega

/-- Witness for the C4 amended claim: the two-lane manager holding
pending jobs 0 and 1 shrinks to one lane; job 1's payload reappears
pending in the surviving lane under a fresh id. -/
theorem c4_amended_witness :
    ∃ m', ((((QueueManager.new 2 (some 1) none).addJob 7 0).1.addJob 8 1).1).updateQueueCount
        1 5 = Except.ok m'
      ∧ m'.queues.length = (1 : Int).toNat
      ∧ ∀ q ∈ ((((QueueManager.new 2 (some 1) none).addJob 7 0).1.addJob
            8 1).1).queues.drop (1 : Int).toNat,
          ∀ j ∈ q.getPendingJobs,
            ∃ i, i < m'.queues.length
              ∧ ∃ j' ∈ (m'.queues.getD i (Queue.new none none)).queue,
                  j'.data = j.data ∧ j'.status = JobStatus.pending ∧ j'.id ≠ j.id :=
  c4_amended_shrink_resubmits_data_fresh_id
    ((((QueueManager.new 2 (some 1) none).addJob 7 0).1.addJob 8 1).1) 1 5
    (by decide) (by decide) (by decide)

theorem truthyNat_of_ne_zero (t : Option Nat) (h : t ≠ some 0) : truthyNat t = t := by
  match t with
  | none => rfl
  | some 0 => exact absurd rfl h
  | some (n + 1) => rfl

theorem truthyNat_ne_some_zero (t : Option Nat) : truthyNat t ≠ some 0 := by
  match t with
  | none => exact fun h => Option.noConfusion h
  | some 0 => exact fun h => Option.noConfusion h
  | some (n + 1) => intro h; simp [truthyNat] at h

theorem recoveryIdx_lt (r : DbRow) (count : Nat) (h : 0 < count) :
    r.recoveryIdx count < count := by
  unfold DbRow.recoveryIdx
  split
  · exact Nat.mod_lt _ h
  · omega

theorem recoveryIdx_eq_mod (r : DbRow) (count : Nat) :
    r.recoveryIdx count = r.queueIndex % count := by
  unfold DbRow.recoveryIdx
  split
  · rfl
  · exact (Nat.mod_eq_of_lt (by omega)).symm

theorem mem_getD_set_append (L : List (List Job)) (idx t : Nat) (x j : Job)
    (hj : j ∈ L.getD t []) : j ∈ (L.set idx (L.getD idx [] ++ [x])).getD t [] := by
  by_cases ht : t = idx
  · subst ht
    by_cases hlt : t < L.length
    · rw [List.getD_eq_getElem?_getD, List.getElem?_set_self hlt]
      exact List.mem_append_left _ hj
    · rw [List.set_eq_of_length_le (by omega)]
      exact hj
  · rw [List.getD_eq_getElem?_getD, List.getElem?_set_ne (fun hh => ht hh.symm),
      ← List.getD_eq_getElem?_getD]
    exact hj

theorem mem_getD_set_append_inv (L : List (List Job)) (idx t : Nat) (x j : Job)
    (hj : j ∈ (L.set idx (L.getD idx [] ++ [x])).getD t []) :
    j ∈ L.getD t [] ∨ j = x := by
  by_cases ht : t = idx
  · subst ht
    by_cases hlt : t < L.length
    · rw [List.getD_eq_getElem?_getD, List.getElem?_set_self hlt] at hj
      rcases List.mem_append.mp hj with hj | hj
      · exact Or.inl hj
      · exact Or.inr (List.mem_singleton.mp hj)
    · rw [List.set_eq_of_length_le (by omega)] at hj
      exact Or.inl hj
  · rw [List.getD_eq_getElem?_getD, List.getElem?_set_ne (fun hh => ht hh.symm),
      ← List.getD_eq_getElem?_getD] at hj
    exact Or.inl hj

theorem recoverStep_groups (count : Nat) (acc : List (List Job) × List DbRow) (r : DbRow) :
    (recoverStep count acc r).1
      = acc.1.set (r.recoveryIdx count)
          (acc.1.getD (r.recoveryIdx count) [] ++ [r.toRecoveredJob]) := rfl

theorem recoverStep_groups_length (count : Nat) (acc : List (List Job) × List DbRow)
    (r : DbRow) : (recoverStep count acc r).1.length = acc.1.length := by
  rw [recoverStep_groups]
  exact List.length_set _ _ _

theorem recoverFold_groups_length (rows : List DbRow) (count : Nat)
    (acc : List (List Job) × List DbRow) :
    (rows.foldl (recoverStep count) acc).1.length = acc.1.length := by
  induction rows generalizing acc with
  | nil => rfl
  | cons r rest ih => rw [List.foldl_cons, ih, recoverStep_groups_length]

theorem recoverFold_groups_mono (rows : List DbRow) (count : Nat)
    (acc : List (List Job) × List DbRow) (t : Nat) (j : Job) (hj : j ∈ acc.1.getD t []) :
    j ∈ (rows.foldl (recoverStep count) acc).1.getD t [] := by
  induction rows generalizing acc with
  | nil => exact hj
  | cons r rest ih =>
      rw [List.foldl_cons]
      refine ih (recoverStep count acc r) ?_
      rw [recoverStep_groups]
      exact mem_getD_set_append _ _ _ _ _ hj

theorem recoverFold_adds (rows : List DbRow) (count : Nat)
    (acc : List (List Job) × List DbRow) (hc : ∀ r ∈ rows, r.recoveryIdx count < acc.1.length) :
    ∀ r ∈ rows, r.toRecoveredJob
      ∈ (rows.foldl (recoverStep count) acc).1.getD (r.recoveryIdx count) [] := by
  induction rows generalizing acc with
  | nil =>
      intro r hr
      exact absurd hr (List.not_mem_nil r)
  | cons r0 rest ih =>
      intro r hr
      rw [List.foldl_cons]
      rcases List.mem_cons.mp hr with rfl | hr
      · refine recoverFold_groups_mono rest count (recoverStep count acc r) _ _ ?_
        rw [recoverStep_groups, List.getD_eq_getElem?_getD,
          List.getElem?_set_self (hc r (List.mem_cons_self _ _))]
        exact List.mem_append_right _ (List.mem_singleton.mpr rfl)
      · refine ih (recoverStep count acc r0) ?_ r hr
        intro r' hr'
        rw [recoverStep_groups_length]
        exact hc r' (List.mem_cons_of_mem r0 hr')

theorem recoverFold_sound (rows : List DbRow) (count : Nat)
    (acc : List (List Job) × List DbRow) (P : Job → Prop)
    (hP : ∀ r ∈ rows, P r.toRecoveredJob)
    (hacc : ∀ t, ∀ j ∈ acc.1.getD t [], P j) :
    ∀ t, ∀ j ∈ (rows.foldl (recoverStep count) acc).1.getD t [], P j := by
  induction rows generalizing acc with
  | nil => exact hacc
  | cons r rest ih =>
      rw [List.foldl_cons]
      refine ih (recoverStep count acc r)
        (fun r' hr' => hP r' (List.mem_cons_of_mem r hr')) ?_
      intro t j hj
      rw [recoverStep_groups] at hj
      rcases mem_getD_set_append_inv _ _ _ _ _ hj with hj | rfl
      · exact hacc t j hj
      · exact hP r (List.mem_cons_self r rest)

theorem recoverStep_db_of_running (count : Nat) (acc : List (List Job) × List DbRow)
    (r : DbRow) (hrun : r.status = JobStatus.running) :
    (recoverStep count acc r).2
      = acc.2.map (fun r' => if r'.id == r.id then { r' with status := JobStatus.pending }
          else r') := by
  unfold recoverStep
  simp [hrun]

theorem recoverStep_db_of_not_running (count : Nat) (acc : List (List Job) × List DbRow)
    (r : DbRow) (hrun : r.status ≠ JobStatus.running) :
    (recoverStep count acc r).2 = acc.2 := by
  unfold recoverStep
  simp only []
  rw [if_neg (by simpa using hrun)]

theorem recoverFold_db_untouched (rows : List DbRow) (count : Nat)
    (acc : List (List Job) × List DbRow) (e : DbRow) (he : e ∈ acc.2)
    (hdiff : ∀ r ∈ rows, r.status = JobStatus.running → r.id ≠ e.id) :
    e ∈ (rows.foldl (recoverStep count) acc).2 := by
  induction rows generalizing acc with
  | nil => exact he
  | cons r rest ih =>
      rw [List.foldl_cons]
      refine ih (recoverStep count acc r) ?_
        (fun r' hr' => hdiff r' (List.mem_cons_of_mem r hr'))
      by_cases hrun : r.status = JobStatus.running
      · rw [recoverStep_db_of_running count acc r hrun]
        have hne : (e.id == r.id) = false := by
          simp only [beq_eq_false_iff_ne]
          exact fun hh => hdiff r (List.mem_cons_self r rest) hrun hh.symm
        have := List.mem_map_of_mem
          (fun r' => if r'.id == r.id then { r' with status := JobStatus.pending } else r') he
        simpa only [hne, Bool.false_eq_true, if_false] using this
      · rw [recoverStep_db_of_not_running count acc r hrun]
        exact he

/-- C9: confirmed (on a store the adapter itself produced: buffer empty
at startup, ids unique, no stored `timeoutMs` of 0 — the flush never
writes one).  `recoverJobs(count)` returns groups indexed `0..count-1`;
every stored row with status pending or running reappears in the group
at `queueIndex % count` forced to pending with payload and `timeoutMs`
unchanged; nothing else is returned; and every running row's downgrade
is persisted to storage while all other rows are untouched. -/
theorem c9_recover_unfinished_to_pending (ps : PersistenceService) (count : Nat)
    (hcount : 0 < count) (hbuf : ps.pendingSyncJobs = [])
    (hids : (ps.db.map (fun r => r.id)).Nodup)
    (htmo : ∀ r ∈ ps.db, r.timeoutMs ≠ some 0) :
    ((ps.recoverJobs count).1.length = count)
    ∧ (∀ r ∈ ps.db, r.isUnfinished = true →
        ∃ j ∈ (ps.recoverJobs count).1.getD (r.queueIndex % count) [],
          j.id = r.id ∧ j.status = JobStatus.pending ∧ j.data = r.data
            ∧ j.timeoutMs = r.timeoutMs)
    ∧ (∀ t, ∀ j ∈ (ps.recoverJobs count).1.getD t [],
        ∃ r ∈ ps.db, r.isUnfinished = true ∧ j = r.toRecoveredJob)
    ∧ (∀ r ∈ ps.db, r.status = JobStatus.running →
        { r with status := JobStatus.pending } ∈ (ps.recoverJobs count).2.db)
    ∧ (∀ r ∈ ps.db, r.status ≠ JobStatus.running → r ∈ (ps.recoverJobs count).2.db) := by
  have hflush : ps.flushPendingJobs = ps := by
    unfold PersistenceService.flushPendingJobs
    rw [if_pos hbuf]
  have hrec : ps.recoverJobs count
      = (((ps.db.filter DbRow.isUnfinished).foldl (recoverStep count)
            (List.replicate count [], ps.db)).1,
          { ps with db := ((ps.db.filter DbRow.isUnfinished).foldl (recoverStep count)
            (List.replicate count [], ps.db)).2 }) := by
    unfold PersistenceService.recoverJobs
    rw [hflush]
  have hinj : ∀ ⦃a : DbRow⦄, a ∈ ps.db → ∀ ⦃b : DbRow⦄, b ∈ ps.db → a.id = b.id → a = b :=
    List.inj_on_of_nodup_map hids
  have hrows_sub : ∀ r ∈ ps.db.filter DbRow.isUnfinished, r ∈ ps.db :=
    fun r hr => List.mem_of_mem_filter hr
  refine ⟨?_, ?_, ?_, ?_, ?_⟩
  · rw [hrec]
    show ((ps.db.filter DbRow.isUnfinished).foldl (recoverStep count)
        (List.replicate count [], ps.db)).1.length = count
    rw [recoverFold_groups_length]
    exact List.length_replicate count []
  · intro r hr hunf
    have hrmem : r ∈ ps.db.filter DbRow.isUnfinished := List.mem_filter.mpr ⟨hr, hunf⟩
    have hadd := recoverFold_adds (ps.db.filter DbRow.isUnfinished) count
      (List.replicate count [], ps.db)
      (fun r' _ => by
        show r'.recoveryIdx count < (List.replicate count ([] : List Job)).length
        rw [List.length_replicate]
        exact recoveryIdx_lt r' count hcount) r hrmem
    rw [recoveryIdx_eq_mod r count] at hadd
    rw [hrec]
    refine ⟨r.toRecoveredJob, hadd, rfl, ?_, rfl, ?_⟩
    · show (if r.status == JobStatus.running then JobStatus.pending else r.status)
        = JobStatus.pending
      unfold DbRow.isUnfinished at hunf
      rcases Bool.or_eq_true_iff.mp hunf with hst | hst
      · rw [if_neg (by simp_all), show r.status = JobStatus.pending by simpa using hst]
      · rw [if_pos hst]
    · show truthyNat r.timeoutMs = r.timeoutMs
      exact truthyNat_of_ne_zero _ (htmo r hr)
  · intro t j hj
    rw [hrec] at hj
    refine recoverFold_sound (ps.db.filter DbRow.isUnfinished) count
      (List.replicate count [], ps.db)
      (fun j => ∃ r ∈ ps.db, r.isUnfinished = true ∧ j = r.toRecoveredJob)
      (fun r hr => ⟨r, List.mem_of_mem_filter hr, List.of_mem_filter hr, rfl⟩)
      (fun t' j' hj' => ?_) t j hj
    exfalso
    have : (List.replicate count ([] : List Job)).getD t' [] = [] := by
      rw [List.getD_eq_getElem?_getD]
      rcases lt_or_ge t' count with hlt | hge
      · rw [List.getElem?_replicate_of_lt (by simpa using hlt)]
        rfl
      · rw [List.getElem?_eq_none (by simpa using hge)]
        rfl
    rw [this] at hj'
    exact List.not_mem_nil j' hj'
  · intro r hr hrun
    have hrmem : r ∈ ps.db.filter DbRow.isUnfinished :=
      List.mem_filter.mpr ⟨hr, by simp [DbRow.isUnfinished, hrun]⟩
    rcases List.append_of_mem hrmem with ⟨l1, l2, hsplit⟩
    have hnodup : ((ps.db.filter DbRow.isUnfinished).map (fun r => r.id)).Nodup :=
      List.Nodup.sublist (List.Sublist.map _ (List.filter_sublist _)) hids
    rw [hsplit] at hnodup
    rw [List.map_append, List.map_cons] at hnodup
    rw [List.nodup_append] at hnodup
    obtain ⟨-, hn2, hdisj⟩ := hnodup
    have hid_l1 : ∀ r' ∈ l1, r'.id ≠ r.id := by
      intro r' hr' hh
      exact hdisj (List.mem_map_of_mem _ hr') (by rw [← hh] at *; exact List.mem_cons_self _ _)
    have hid_l2 : ∀ r' ∈ l2, r'.id ≠ r.id := by
      intro r' hr' hh
      rcases List.nodup_cons.mp hn2 with ⟨hnotm, -⟩
      exact hnotm (by rw [← hh]; exact List.mem_map_of_mem _ hr')
    rw [hrec]
    show { r with status := JobStatus.pending }
      ∈ ((ps.db.filter DbRow.isUnfinished).foldl (recoverStep count)
          (List.replicate count [], ps.db)).2
    rw [hsplit, List.foldl_append, List.foldl_cons]
    refine recoverFold_db_untouched l2 count _ _ ?_ ?_
    · have hphase1 : r ∈ (l1.foldl (recoverStep count) (List.replicate count [], ps.db)).2 :=
        recoverFold_db_untouched l1 count _ r hr
          (fun r' hr' _ hh => hid_l1 r' hr' hh)
      rw [recoverStep_db_of_running count _ r hrun]
      have := List.mem_map_of_mem
        (fun r' => if r'.id == r.id then { r' with status := JobStatus.pending } else r')
        hphase1
      simpa only [beq_self_eq_true, if_true] using this
    · intro r' hr' _ hh
      exact hid_l2 r' hr' hh
  · intro r hr hrun
    rw [hrec]
    show r ∈ ((ps.db.filter DbRow.isUnfinished).foldl (recoverStep count)
        (List.replicate count [], ps.db)).2
    refine recoverFold_db_untouched _ count _ r hr ?_
    intro r' hr' hrun' hh
    have : r' = r := hinj (hrows_sub r' hr') hr hh
    rw [this] at hrun'
    exact hrun hrun'

/-- Witness for C9 at a concrete three-row store (a pending row, a
running row whose stored lane index 5 is outside the two-lane topology,
and a completed row that recovery must ignore). -/
theorem c9_witness :
    ((PersistenceService.mk []
        [DbRow.mk 0 10 .pending 0 (some 500) 1 none none none,
          DbRow.mk 1 11 .running 5 none 2 (some 3) none none,
          DbRow.mk 2 12 .completed 1 (some 9) 3 (some 4) (some 6) none]
        100).recoverJobs 2).1.length = 2 :=
  (c9_recover_unfinished_to_pending
    (PersistenceService.mk []
      [DbRow.mk 0 10 .pending 0 (some 500) 1 none none none,
        DbRow.mk 1 11 .running 5 none 2 (some 3) none none,
        DbRow.mk 2 12 .completed 1 (some 9) 3 (some 4) (some 6) none]
      100) 2 (by decide) (by decide) (by decide) (by decide)).1

theorem dbUpsert_timeout_ne_zero (db : List DbRow) (b : BufJob)
    (h : ∀ r ∈ db, r.timeoutMs ≠ some 0) :
    ∀ r ∈ dbUpsert db b, r.timeoutMs ≠ some 0 := by
  unfold dbUpsert
  split
  · intro r hr
    rcases List.mem_map.mp hr with ⟨a, ha, rfl⟩
    by_cases hab : (a.id == b.job.id) = true
    · rw [if_pos hab]
      show a.timeoutMs ≠ some 0
      exact h a ha
    · rw [if_neg hab]
      exact h a ha
  · intro r hr
    rcases List.mem_append.mp hr with hr | hr
    · exact h r hr
    · rcases List.mem_singleton.mp hr with rfl
      show truthyNat b.job.timeoutMs ≠ some 0
      exact truthyNat_ne_some_zero _

theorem foldUpsert_timeout_ne_zero (batch : List BufJob) (db : List DbRow)
    (h : ∀ r ∈ db, r.timeoutMs ≠ some 0) :
    ∀ r ∈ batch.foldl dbUpsert db, r.timeoutMs ≠ some 0 := by
  induction batch generalizing db with
  | nil => exact h
  | cons b rest ih =>
      rw [List.foldl_cons]
      exact ih (dbUpsert db b) (dbUpsert_timeout_ne_zero db b h)

/-- The batch flush never stores a `timeoutMs` of 0 (the `|| null`
conversion collapses it to null on create, and updates leave the column
untouched): every store the adapter produced satisfies the
corresponding hypothesis of the C9 theorem. -/
theorem flush_never_stores_zero_timeout (ps : PersistenceService)
    (h : ∀ r ∈ ps.db, r.timeoutMs ≠ some 0) :
    ∀ r ∈ ps.flushPendingJobs.db, r.timeoutMs ≠ some 0 := by
  unfold PersistenceService.flushPendingJobs
  split
  · exact h
  · exact foldUpsert_timeout_ne_zero _ _ h

end Turntable
